import Mathlib

/-! rob-shop-cleanup: ledger reconciliation and safe deletion

A shallow embedding of `cleanup_service.go`, `utils.go` and the step sequencing of
`main.go`.

Modelling conventions

* The three tables (`journal`, `form_detail`, `form_header`) are lists of rows in
  storage order.  Primary keys are *not* assumed unique unless a theorem says so.
* Quantities (the `quantity` columns, `float64` on the Go side) live in a carrier `F`
  with the operations of `Arith`: Go's `float64(n)`, `*`, `+`, `-`, `<=` and the
  constants `0.0` and `0.001`, and SQL's `j.type * j.quantity`, `SUM(..)` and `.. = 0`.
  The definitions and the general theorems assume nothing about these operations:
  they hold for IEEE 754 binary64 with its rounding (instance `binary64`, Go's
  `float64` on `DOUBLE` columns) and for exact arithmetic (instance `exactArith`)
  alike.  The states the claims are instantiated on carry small integers, on which
  the two instances agree (`binary64_agrees_on_concrete_states`); `decimalDB` and
  `threeEntryDB` give states on which they differ.
* A `Commit` that fails commits nothing: the tables stay the committed ones, as
  after a `Rollback`.  That a transaction is all-or-nothing is the store's
  guarantee; what the theorems add is that every statement of a pass goes through
  its transaction.
* A calendar date is its day ordinal, so `journalDate <= ?` is `≤` on `Nat`.
* A Go `error` result is an `Option DBError` (`none` is `nil`).
* A transaction `Tx` works on a private copy of the tables next to the committed
  tables, which only `Commit` replaces and to which `Rollback` returns.  Every call
  on the transaction consumes one operation index and fails when the fault schedule
  `faults` says so; a store fault therefore can hit any step.
* Go map iteration order is unspecified: it is an explicit `KeyOrder`, an arbitrary
  rearrangement of the keys.
* The schema itself is not part of the repository: no foreign-key constraint, cascade
  or trigger is assumed, the columns other than `journal.referenceFk` are taken to be
  `NOT NULL`, and no other connection writes while a pass runs.  The read-only
  queries of `main` are functions of the tables; store faults are modelled inside
  the two transactions, where they decide between commit and rollback.
-/

namespace RobShop

/-! ## Quantities -/

/-- The arithmetic of quantities: the carrier `F` of the `quantity` columns and of
Go's `float64`, with the operations the program applies to it.  No law is assumed. -/
class Arith (F : Type) where
  /-- Go: the zero value `0.0` of a `float64`, read from a map without the key. -/
  zero : F
  /-- Go: the constant `0.001`. -/
  eps : F
  /-- Go: the conversion `float64(n)` of an `int`. -/
  ofInt : Int → F
  /-- Go: `x * y` on `float64`. -/
  mul : F → F → F
  /-- Go: `x + y` on `float64`. -/
  add : F → F → F
  /-- Go: `x - y` on `float64`. -/
  sub : F → F → F
  /-- Go: `x <= y` on `float64`. -/
  le : F → F → Bool
  /-- SQL: `j.type * j.quantity`. -/
  sqlProduct : Int → F → F
  /-- SQL: the literal `0` of `CASE .. ELSE 0 END`. -/
  sqlZero : F
  /-- SQL: `SUM(..)` over the values of the rows of one group, in storage order. -/
  sqlSum : List F → F
  /-- SQL: the comparison `.. = 0` of `HAVING`. -/
  sqlIsZero : F → Bool

variable {F : Type}

/-- Exact arithmetic on rationals: the idealisation in which no operation rounds.  On
quantities that are small integers it computes what `binary64` computes. -/
instance exactArith : Arith ℚ where
  zero := 0
  eps := 1 / 1000
  ofInt := fun n => (n : ℚ)
  mul := fun x y => x * y
  add := fun x y => x + y
  sub := fun x y => x - y
  le := fun x y => decide (x ≤ y)
  sqlProduct := fun n x => (n : ℚ) * x
  sqlZero := 0
  sqlSum := fun xs => xs.sum
  sqlIsZero := fun x => decide (x = 0)

/-! ## IEEE 754 binary64 -/

/-- A value of IEEE 754 binary64: a finite number, given exactly as a rational, an
infinity or a NaN.  The finite binary64 values are the rationals in the range of
`Float64.round`, which is where every operation lands; the two zeros are one value,
as no operation of the program tells them apart. -/
inductive Float64 where
  | finite (q : ℚ)
  | inf (negative : Bool)
  | nan
deriving DecidableEq, Repr

/-- The power `2 ^ e` for an integer exponent. -/
def Float64.pow2 (e : Int) : ℚ :=
  if 0 ≤ e then (2 : ℚ) ^ e.toNat else 1 / (2 : ℚ) ^ (-e).toNat

/-- The number of halvings that bring `n` below 2, at most `fuel` of them. -/
def Float64.log2Nat.loop : Nat → Nat → Nat
  | 0, _ => 0
  | fuel + 1, n => if n < 2 then 0 else Float64.log2Nat.loop fuel (n / 2) + 1

/-- The binary exponent `floor(log2 n)` of a positive natural number. -/
def Float64.log2Nat (n : Nat) : Nat := Float64.log2Nat.loop n n

/-- The binary exponent `floor(log2 q)` of a positive rational. -/
def Float64.log2Floor (q : ℚ) : Int :=
  let e := (Float64.log2Nat q.num.natAbs : Int) - (Float64.log2Nat q.den : Int)
  if Float64.pow2 e ≤ q then e else e - 1

/-- Rounding of an exact result to binary64: to the nearest value with a 53-bit
significand (subnormals below `2 ^ -1022`), ties to the even significand, and to an
infinity from `2 ^ 1024` on. -/
def Float64.round (q : ℚ) : Float64 :=
  if q = 0 then .finite 0
  else
    let ulp := Float64.pow2 (max (Float64.log2Floor |q| - 52) (-1074))
    let n := |q| / ulp
    let f := n.floor
    let r := n - f
    let m := if r < 1 / 2 then f else if 1 / 2 < r then f + 1 else if f % 2 = 0 then f else f + 1
    let v := (m : ℚ) * ulp
    if (2 : ℚ) ^ 1024 ≤ v then .inf (decide (q < 0))
    else .finite (if q < 0 then -v else v)

/-- IEEE 754 negation. -/
def Float64.neg : Float64 → Float64
  | .finite q => .finite (-q)
  | .inf s => .inf (!s)
  | .nan => .nan

/-- IEEE 754 addition, rounded to nearest even. -/
def Float64.add : Float64 → Float64 → Float64
  | .finite a, .finite b => Float64.round (a + b)
  | .finite _, .inf s => .inf s
  | .inf s, .finite _ => .inf s
  | .inf s, .inf t => if s = t then .inf s else .nan
  | _, _ => .nan

/-- IEEE 754 multiplication, rounded to nearest even. -/
def Float64.mul : Float64 → Float64 → Float64
  | .finite a, .finite b => Float64.round (a * b)
  | .finite a, .inf s => if a = 0 then .nan else .inf (xor s (decide (a < 0)))
  | .inf s, .finite b => if b = 0 then .nan else .inf (xor s (decide (b < 0)))
  | .inf s, .inf t => .inf (xor s t)
  | _, _ => .nan

/-- IEEE 754 comparison `x <= y`: false as soon as one side is a NaN. -/
def Float64.le : Float64 → Float64 → Bool
  | .finite a, .finite b => decide (a ≤ b)
  | .finite _, .inf s => !s
  | .inf s, .finite _ => s
  | .inf s, .inf t => s || !t
  | _, _ => false

/-- Go's `float64` on a store whose `quantity` columns are `DOUBLE`: every operation
rounds on its own (no fused multiply-add), the constant `0.001` is the nearest
binary64 value, and `SUM` adds the values up from zero in storage order. -/
instance binary64 : Arith Float64 where
  zero := .finite 0
  eps := Float64.round (1 / 1000)
  ofInt := fun n => Float64.round n
  mul := Float64.mul
  add := Float64.add
  sub := fun x y => Float64.add x (Float64.neg y)
  le := Float64.le
  sqlProduct := fun n x => Float64.mul (Float64.round n) x
  sqlZero := .finite 0
  sqlSum := fun xs => xs.foldl Float64.add (.finite 0)
  sqlIsZero := fun x => decide (x = .finite 0)

/-- The order laws of `<=` that hold in IEEE 754 binary64, NaN included, and in exact
arithmetic: it is transitive and `0.0 <= 0.001`. -/
structure Arith.Ordered (F : Type) [Arith F] : Prop where
  le_trans : ∀ a b c : F, Arith.le a b = true → Arith.le b c = true → Arith.le a c = true
  zero_le_eps : Arith.le (Arith.zero : F) Arith.eps = true

/-! ## Tables -/

/-- Calendar date as a day ordinal. -/
abbrev Date := Nat

/-- Row of table `journal`. -/
structure JournalRow (F : Type) where
  id : Int
  accountFk : Int
  referenceFk : Option Int
  itemFk : Int
  locationFk : Int
  shopFk : Int
  type : Int
  quantity : F
  journalDate : Date
  detailFk : Int
deriving DecidableEq, Repr

/-- Row of table `form_detail`. -/
structure FormDetailRow (F : Type) where
  id : Int
  headerFk : Int
  quantity : F
deriving DecidableEq, Repr

/-- Row of table `form_header`. -/
structure FormHeaderRow where
  id : Int
  headerNo : String
  formDate : Date
  partnerFk : Int
  formType : Int
deriving DecidableEq, Repr

/-- Database state: the three tables. -/
structure DB (F : Type) where
  journal : List (JournalRow F)
  form_detail : List (FormDetailRow F)
  form_header : List FormHeaderRow
deriving DecidableEq, Repr

/-! ## types.go -/

/-- ItemBalance represents an item's balance information. -/
structure ItemBalance (F : Type) where
  ReferenceFk : Int
  ItemFk : Int
  LocationFk : Int
  ShopFk : Int
  TotalPurchases : F
  TotalSales : F
  NetBalance : F
  LastTxnDate : Date
deriving DecidableEq, Repr

/-- DeletedRecord represents a record that will be deleted. -/
structure DeletedRecord where
  JournalID : Int
  DetailID : Int
  HeaderID : Int
  TxnDate : Date
deriving DecidableEq, Repr

/-- Stats represents statistics about records to be processed. -/
structure Stats where
  JournalRecords : Nat
  DetailRecords : Nat
  HeaderRecords : Nat
deriving DecidableEq, Repr

/-- OrphanedHeader represents a form_header with no form_detail. -/
structure OrphanedHeader where
  ID : Int
  HeaderNo : String
  FormDate : Date
  PartnerFk : Int
  FormType : Int
deriving DecidableEq, Repr

/-! ## The store: statements, errors, transactions -/

/-- The table names that `deleteByIDs` is called with. -/
inductive Table where
  | journal
  | form_detail
  | form_header
deriving DecidableEq, Repr

/-- Mutating statements sent through `tx.Exec`. -/
inductive Stmt (F : Type) where
  /-- Statement `DELETE FROM <table> WHERE id IN (<ids>)`. -/
  | deleteIn (tableName : Table) (ids : List Int)
  /-- Statement `UPDATE form_detail SET quantity = ? WHERE id = ?`. -/
  | updateQuantity (newQty : F) (detailID : Int)
deriving DecidableEq, Repr

/-- Errors a store call can return. -/
inductive DBError where
  /-- Go: `sql.ErrNoRows` from `QueryRow(...).Scan`. -/
  | noRows
  /-- Any other failure of the store, at the given operation index. -/
  | storeFailure (op : Nat)
deriving DecidableEq, Repr

/-- Effect of a statement on the tables. -/
def applyStmt (s : Stmt F) (db : DB F) : DB F :=
  match s with
  | .deleteIn .journal ids =>
      { db with journal := db.journal.filter (fun j => decide (j.id ∉ ids)) }
  | .deleteIn .form_detail ids =>
      { db with form_detail := db.form_detail.filter (fun d => decide (d.id ∉ ids)) }
  | .deleteIn .form_header ids =>
      { db with form_header := db.form_header.filter (fun h => decide (h.id ∉ ids)) }
  | .updateQuantity newQty detailID =>
      { db with
        form_detail := db.form_detail.map (fun d =>
          if d.id = detailID then { d with quantity := newQty } else d) }

/-- An open transaction: the working copy of the tables, the fault schedule of the
connection, the index of the next operation, the statements executed so far and
the committed tables, as they were at `Begin`. -/
structure Tx (F : Type) where
  db : DB F
  faults : Nat → Bool
  ops : Nat
  executed : List (Stmt F)
  committed : DB F

/-- Go: `tx.Exec(query)`. -/
def Tx.Exec (tx : Tx F) (s : Stmt F) : Option DBError × Tx F :=
  if tx.faults tx.ops then
    (some (.storeFailure tx.ops), { tx with ops := tx.ops + 1 })
  else
    (none, { tx with db := applyStmt s tx.db, ops := tx.ops + 1,
                     executed := tx.executed ++ [s] })

/-- Go: `tx.QueryRow("SELECT quantity, type FROM journal WHERE id = ?", id).Scan(..)`. -/
def Tx.QueryJournalRow (tx : Tx F) (id : Int) : Except DBError (F × Int) × Tx F :=
  if tx.faults tx.ops then
    (.error (.storeFailure tx.ops), { tx with ops := tx.ops + 1 })
  else
    match tx.db.journal.find? (fun j => decide (j.id = id)) with
    | some j => (.ok (j.quantity, j.type), { tx with ops := tx.ops + 1 })
    | none => (.error .noRows, { tx with ops := tx.ops + 1 })

/-- Go: `tx.QueryRow("SELECT quantity FROM form_detail WHERE id = ?", id).Scan(..)`. -/
def Tx.QueryDetailRow (tx : Tx F) (id : Int) : Except DBError F × Tx F :=
  if tx.faults tx.ops then
    (.error (.storeFailure tx.ops), { tx with ops := tx.ops + 1 })
  else
    match tx.db.form_detail.find? (fun d => decide (d.id = id)) with
    | some d => (.ok d.quantity, { tx with ops := tx.ops + 1 })
    | none => (.error .noRows, { tx with ops := tx.ops + 1 })

/-- Go: `cs.db.Begin()`; operation index 0 of the pass. -/
def Begin (faults : Nat → Bool) (db : DB F) : Except DBError (Tx F) :=
  if faults 0 then .error (.storeFailure 0)
  else .ok { db := db, faults := faults, ops := 1, executed := [], committed := db }

/-- Go: `tx.Commit()`; on success the working copy becomes the committed tables. -/
def Tx.Commit (tx : Tx F) : Except DBError (DB F) :=
  if tx.faults tx.ops then .error (.storeFailure tx.ops) else .ok tx.db

/-- Go: the deferred `tx.Rollback()` of a transaction that has not been committed:
the working copy is dropped and the tables are the committed ones. -/
def Tx.Rollback (tx : Tx F) : DB F := tx.committed

/-! ## deleteByIDs -/

/-- Go: `batchSize := 1000`. -/
def batchSize : Nat := 1000

/-- Go: the `for i := 0; i < len(ids); i += batchSize` loop of `deleteByIDs`. -/
def deleteByIDs.loop (tableName : Table) (ids : List Int) (i : Nat) (tx : Tx F) :
    Option DBError × Tx F :=
  if i < ids.length then
    let end_ := if i + batchSize > ids.length then ids.length else i + batchSize
    let batch := (ids.take end_).drop i
    match tx.Exec (.deleteIn tableName batch) with
    | (some err, tx') => (some err, tx')
    | (none, tx') => deleteByIDs.loop tableName ids (i + batchSize) tx'
  else
    (none, tx)
termination_by ids.length - i
decreasing_by
  simp only [batchSize]
  omega

/-- Go: `deleteByIDs(tx, tableName, ids)`. -/
def deleteByIDs (tx : Tx F) (tableName : Table) (ids : List Int) :
    Option DBError × Tx F :=
  if ids.length = 0 then (none, tx)
  else deleteByIDs.loop tableName ids 0 tx

/-! ## Go maps -/

/-- A Go `map[int]V`: the keys present, in insertion order, and the value of every
key (the zero value where the key is absent). -/
structure GoMap (V : Type) where
  keys : List Int
  val : Int → V

/-- Go: `make(map[int]V)`. -/
def GoMap.empty {V : Type} (zero : V) : GoMap V :=
  { keys := [], val := fun _ => zero }

/-- Go: `m[k] = v`. -/
def GoMap.set {V : Type} (m : GoMap V) (k : Int) (v : V) : GoMap V :=
  { keys := if k ∈ m.keys then m.keys else m.keys ++ [k]
    val := fun x => if x = k then v else m.val x }

/-- The order in which one `range` over a map visits the keys: any rearrangement. -/
structure KeyOrder where
  iter : List Int → List Int
  perm : ∀ ks, (iter ks).Perm ks

/-- What the pass does not control: the faults of the store and the iteration
orders of the two `range` loops over maps. -/
structure Env where
  faults : Nat → Bool
  journalOrder : KeyOrder
  detailOrder : KeyOrder

/-! ## PerformDeletion -/

/-- Go: the `for _, record := range records` loop of `PerformDeletion`. -/
def PerformDeletion.accumulate [Arith F] (tx : Tx F) (detailQuantities : GoMap F)
    (journalIDsByDetail : GoMap (List Int)) :
    List DeletedRecord → Option DBError × Tx F × GoMap F × GoMap (List Int)
  | [] => (none, tx, detailQuantities, journalIDsByDetail)
  | record :: rest =>
    match tx.QueryJournalRow record.JournalID with
    | (.error err, tx') => (some err, tx', detailQuantities, journalIDsByDetail)
    | (.ok (quantity, recType), tx') =>
      let actualQuantity := Arith.mul (Arith.ofInt recType) quantity
      PerformDeletion.accumulate tx'
        (detailQuantities.set record.DetailID
          (Arith.add (detailQuantities.val record.DetailID) actualQuantity))
        (journalIDsByDetail.set record.DetailID
          (journalIDsByDetail.val record.DetailID ++ [record.JournalID]))
        rest

/-- Go: the `for detailID, reducedQty := range detailQuantities` loop of
`PerformDeletion`, over the keys in iteration order. -/
def PerformDeletion.reconcile [Arith F] (detailQuantities : GoMap F) (tx : Tx F)
    (detailsToDelete : List Int) (detailsUpdated : Nat) :
    List Int → Option DBError × Tx F × List Int × Nat
  | [] => (none, tx, detailsToDelete, detailsUpdated)
  | detailID :: rest =>
    let reducedQty := detailQuantities.val detailID
    match tx.QueryDetailRow detailID with
    | (.error err, tx') => (some err, tx', detailsToDelete, detailsUpdated)
    | (.ok currentQty, tx') =>
      let newQty := Arith.sub currentQty reducedQty
      if Arith.le newQty Arith.eps then
        PerformDeletion.reconcile detailQuantities tx' (detailsToDelete ++ [detailID])
          detailsUpdated rest
      else
        match tx'.Exec (.updateQuantity newQty detailID) with
        | (some err, tx'') => (some err, tx'', detailsToDelete, detailsUpdated)
        | (none, tx'') =>
          PerformDeletion.reconcile detailQuantities tx'' detailsToDelete
            (detailsUpdated + 1) rest

/-- The local variables of `PerformDeletion` that outlive its loops. -/
structure Plan where
  allJournalIDs : List Int
  detailsToDelete : List Int
  detailsUpdated : Nat
deriving DecidableEq, Repr

/-- Go: the body of `PerformDeletion` between `Begin` and `Commit`. -/
def PerformDeletion.body [Arith F] (env : Env) (tx : Tx F) (records : List DeletedRecord) :
    Option DBError × Tx F × Plan :=
  match PerformDeletion.accumulate tx (GoMap.empty Arith.zero) (GoMap.empty []) records with
  | (some err, tx, _, _) => (some err, tx, ⟨[], [], 0⟩)
  | (none, tx, detailQuantities, journalIDsByDetail) =>
    let allJournalIDs :=
      ((env.journalOrder.iter journalIDsByDetail.keys).map journalIDsByDetail.val).flatten
    match (if allJournalIDs.length > 0 then deleteByIDs tx .journal allJournalIDs
           else (none, tx)) with
    | (some err, tx) => (some err, tx, ⟨allJournalIDs, [], 0⟩)
    | (none, tx) =>
      match PerformDeletion.reconcile detailQuantities tx [] 0
              (env.detailOrder.iter detailQuantities.keys) with
      | (some err, tx, detailsToDelete, detailsUpdated) =>
          (some err, tx, ⟨allJournalIDs, detailsToDelete, detailsUpdated⟩)
      | (none, tx, detailsToDelete, detailsUpdated) =>
        match (if detailsToDelete.length > 0 then
                 deleteByIDs tx .form_detail detailsToDelete
               else (none, tx)) with
        | (some err, tx) => (some err, tx, ⟨allJournalIDs, detailsToDelete, detailsUpdated⟩)
        | (none, tx) => (none, tx, ⟨allJournalIDs, detailsToDelete, detailsUpdated⟩)

/-- What a call of `PerformDeletion` leaves behind: the returned error, the
committed tables, the statements executed inside its transaction (committed or
rolled back) and the plan it had computed when it returned. -/
structure DeletionOutcome (F : Type) where
  err : Option DBError
  db : DB F
  executed : List (Stmt F)
  plan : Plan
deriving DecidableEq, Repr

/-- Go: `(cs *CleanupService) PerformDeletion(records)`.  Every return after `Begin`
and before a successful `Commit` runs the deferred `tx.Rollback()`. -/
def PerformDeletion [Arith F] (env : Env) (db : DB F) (records : List DeletedRecord) :
    DeletionOutcome F :=
  if records.length = 0 then ⟨none, db, [], ⟨[], [], 0⟩⟩
  else
    match Begin env.faults db with
    | .error err => ⟨some err, db, [], ⟨[], [], 0⟩⟩
    | .ok tx =>
      match PerformDeletion.body env tx records with
      | (some err, tx, plan) => ⟨some err, tx.Rollback, tx.executed, plan⟩
      | (none, tx, plan) =>
        match tx.Commit with
        | .error err => ⟨some err, tx.Rollback, tx.executed, plan⟩
        | .ok committed => ⟨none, committed, tx.executed, plan⟩

/-! ## The read-only queries -/

/-- The `GROUP BY j.referenceFk, j.itemFk, j.locationFk, j.shopFk` key of a row. -/
abbrev GroupKey := Option Int × Int × Int × Int

/-- Grouping key of a journal row. -/
def groupKey (j : JournalRow F) : GroupKey :=
  (j.referenceFk, j.itemFk, j.locationFk, j.shopFk)

/-- SQL: `WHERE j.accountFk = 2 AND j.journalDate <= ? AND j.referenceFk IS NOT NULL`. -/
def zeroBalanceWhere (cutoffDate : Date) (j : JournalRow F) : Bool :=
  decide (j.accountFk = 2) && decide (j.journalDate ≤ cutoffDate) && j.referenceFk.isSome

/-- SQL: `SUM(j.type * j.quantity)` over the rows of one group. -/
def netBalance [Arith F] (rows : List (JournalRow F)) : F :=
  Arith.sqlSum (rows.map (fun j => Arith.sqlProduct j.type j.quantity))

/-- SQL: `GROUP BY`: each distinct key with the rows that carry it. -/
def groupRows (rows : List (JournalRow F)) : List (GroupKey × List (JournalRow F)) :=
  (rows.map groupKey).dedup.map
    (fun k => (k, rows.filter (fun j => decide (groupKey j = k))))

/-- The select list of `FindZeroBalanceItemsByDate` for one group, scanned into an
`ItemBalance`. -/
def scanItemBalance [Arith F] (g : GroupKey × List (JournalRow F)) : ItemBalance F :=
  { ReferenceFk := g.1.1.getD 0
    ItemFk := g.1.2.1
    LocationFk := g.1.2.2.1
    ShopFk := g.1.2.2.2
    TotalPurchases :=
      Arith.sqlSum (g.2.map (fun j => if j.type > 0 then j.quantity else Arith.sqlZero))
    TotalSales :=
      Arith.sqlSum (g.2.map (fun j => if j.type < 0 then j.quantity else Arith.sqlZero))
    NetBalance := netBalance g.2
    LastTxnDate := (g.2.map (fun j => j.journalDate)).foldl max 0 }

/-- Go: `(cs *CleanupService) FindZeroBalanceItemsByDate(cutoffDate)`. -/
def FindZeroBalanceItemsByDate [Arith F] (db : DB F) (cutoffDate : Date) : List (ItemBalance F) :=
  let rows := db.journal.filter (zeroBalanceWhere cutoffDate)
  let having := (groupRows rows).filter (fun g => Arith.sqlIsZero (netBalance g.2))
  (having.map scanItemBalance).insertionSort (fun a b => a.ReferenceFk ≤ b.ReferenceFk)

/-- SQL: `journal j INNER JOIN form_detail fd ON j.detailFk = fd.id
INNER JOIN form_header fh ON fd.headerFk = fh.id`. -/
def joinJournalDetailHeader (db : DB F) :
    List (JournalRow F × FormDetailRow F × FormHeaderRow) :=
  db.journal.flatMap (fun j =>
    (db.form_detail.filter (fun fd => decide (j.detailFk = fd.id))).flatMap (fun fd =>
      (db.form_header.filter (fun fh => decide (fd.headerFk = fh.id))).map (fun fh =>
        (j, fd, fh))))

/-- SQL: `WHERE j.accountFk = 2 AND j.referenceFk IN (..) AND j.journalDate <= ?`. -/
def recordsWhere (referenceFks : List Int) (cutoffDate : Date) (j : JournalRow F) : Bool :=
  decide (j.accountFk = 2) &&
    (match j.referenceFk with
     | some r => decide (r ∈ referenceFks)
     | none => false) &&
    decide (j.journalDate ≤ cutoffDate)

/-- SQL: `ORDER BY j.referenceFk, j.journalDate`. -/
def recordsOrder (a b : JournalRow F × FormDetailRow F × FormHeaderRow) : Prop :=
  a.1.referenceFk.getD 0 < b.1.referenceFk.getD 0 ∨
    (a.1.referenceFk.getD 0 = b.1.referenceFk.getD 0 ∧ a.1.journalDate ≤ b.1.journalDate)

instance recordsOrder.decidable : DecidableRel (@recordsOrder F) :=
  fun a b => by unfold recordsOrder; exact inferInstance

/-- Go: `(cs *CleanupService) GetRecordsToDelete(items, cutoffDate)`. -/
def GetRecordsToDelete (db : DB F) (items : List (ItemBalance F)) (cutoffDate : Date) :
    List DeletedRecord :=
  if items.length = 0 then []
  else
    let referenceFks := items.map (fun item => item.ReferenceFk)
    let rows := (joinJournalDetailHeader db).filter
      (fun r => recordsWhere referenceFks cutoffDate r.1)
    (rows.insertionSort recordsOrder).map (fun r =>
      { JournalID := r.1.id, DetailID := r.1.detailFk, HeaderID := r.2.1.headerFk,
        TxnDate := r.1.journalDate })

/-- SQL: `form_header fh LEFT JOIN form_detail fd ON fh.id = fd.headerFk`. -/
def leftJoinHeaderDetail (db : DB F) : List (FormHeaderRow × Option (FormDetailRow F)) :=
  db.form_header.flatMap (fun fh =>
    match db.form_detail.filter (fun fd => decide (fh.id = fd.headerFk)) with
    | [] => [(fh, none)]
    | fd :: fds => (fd :: fds).map (fun x => (fh, some x)))

/-- Go: `(cs *CleanupService) FindOrphanedHeaders()`. -/
def FindOrphanedHeaders (db : DB F) : List OrphanedHeader :=
  let rows := (leftJoinHeaderDetail db).filter (fun r => r.2.isNone)
  (rows.insertionSort (fun a b => a.1.id ≤ b.1.id)).map (fun r =>
    { ID := r.1.id, HeaderNo := r.1.headerNo, FormDate := r.1.formDate,
      PartnerFk := r.1.partnerFk, FormType := r.1.formType })

/-- What a call of `DeleteOrphanedHeaders` leaves behind. -/
structure OrphanOutcome (F : Type) where
  err : Option DBError
  db : DB F
  executed : List (Stmt F)
deriving DecidableEq, Repr

/-- Go: `(cs *CleanupService) DeleteOrphanedHeaders(headers)`. -/
def DeleteOrphanedHeaders (faults : Nat → Bool) (db : DB F)
    (headers : List OrphanedHeader) : OrphanOutcome F :=
  if headers.length = 0 then ⟨none, db, []⟩
  else
    match Begin faults db with
    | .error err => ⟨some err, db, []⟩
    | .ok tx =>
      let headerIDs := headers.map (fun header => header.ID)
      match deleteByIDs tx .form_header headerIDs with
      | (some err, tx) => ⟨some err, tx.Rollback, tx.executed⟩
      | (none, tx) =>
        match tx.Commit with
        | .error err => ⟨some err, tx.Rollback, tx.executed⟩
        | .ok committed => ⟨none, committed, tx.executed⟩

/-! ## utils.go and main.go -/

/-- Go: `CalculateStats(records)`. -/
def CalculateStats (records : List DeletedRecord) : Stats :=
  { JournalRecords := records.length
    DetailRecords := (records.map (fun r => r.DetailID)).dedup.length
    HeaderRecords := (records.map (fun r => r.HeaderID)).dedup.length }

/-- The part of `Config` the cleanup steps read, with the cutoff date parsed. -/
structure Config where
  CutoffDate : Date
  DryRun : Bool
deriving DecidableEq, Repr

/-- The environment of one run of `main`: one `Env` for the zero-balance
transaction and the fault schedule of the orphan transaction. -/
structure RunEnv where
  deletion : Env
  orphanFaults : Nat → Bool

/-- What one run of `main` selected and did.  `orphanedHeaders` is `none` when the
run stopped with `log.Fatal` before step 2. -/
structure RunReport (F : Type) where
  zeroBalanceItems : List (ItemBalance F)
  recordsToDelete : List DeletedRecord
  plan : Option Plan
  orphanedHeaders : Option (List OrphanedHeader)
  fatal : Option DBError
  db : DB F
deriving DecidableEq, Repr

/-- Go: step 2 of `main`, on the tables left by step 1. -/
def main.step2 (config : Config) (env : RunEnv) (db : DB F)
    (zeroBalanceItems : List (ItemBalance F)) (recordsToDelete : List DeletedRecord)
    (plan : Option Plan) : RunReport F :=
  let orphanedHeaders := FindOrphanedHeaders db
  if orphanedHeaders.length > 0 then
    if config.DryRun then
      ⟨zeroBalanceItems, recordsToDelete, plan, some orphanedHeaders, none, db⟩
    else
      let out := DeleteOrphanedHeaders env.orphanFaults db orphanedHeaders
      ⟨zeroBalanceItems, recordsToDelete, plan, some orphanedHeaders, out.err, out.db⟩
  else
    ⟨zeroBalanceItems, recordsToDelete, plan, some orphanedHeaders, none, db⟩

/-- Go: `main()`, steps 1 and 2 (step 3 only prints). -/
def main [Arith F] (config : Config) (env : RunEnv) (db : DB F) : RunReport F :=
  let zeroBalanceItems := FindZeroBalanceItemsByDate db config.CutoffDate
  if zeroBalanceItems.length > 0 then
    let recordsToDelete := GetRecordsToDelete db zeroBalanceItems config.CutoffDate
    if config.DryRun then
      main.step2 config env db zeroBalanceItems recordsToDelete none
    else
      let out := PerformDeletion env.deletion db recordsToDelete
      match out.err with
      | some err => ⟨zeroBalanceItems, recordsToDelete, some out.plan, none, some err, out.db⟩
      | none => main.step2 config env out.db zeroBalanceItems recordsToDelete (some out.plan)
  else
    main.step2 config env db zeroBalanceItems [] none

/-! ## Specification-side definitions -/

/-- The batches the loop of `deleteByIDs` forms from offset `i` on: `ids[i:end]` for
each value of `i` the loop visits. -/
def deleteByIDs.batches (ids : List Int) (i : Nat) : List (List Int) :=
  if i < ids.length then
    (ids.take (if i + batchSize > ids.length then ids.length else i + batchSize)).drop i ::
      deleteByIDs.batches ids (i + batchSize)
  else []
termination_by ids.length - i
decreasing_by
  simp only [batchSize]
  omega

/-- The signed contribution `type × quantity` of the journal entry that
`SELECT quantity, type FROM journal WHERE id = ?` returns for `journalID`
(zero when there is none). -/
def journalContribution [Arith F] (db : DB F) (journalID : Int) : F :=
  match db.journal.find? (fun j => decide (j.id = journalID)) with
  | some j => Arith.mul (Arith.ofInt j.type) j.quantity
  | none => Arith.zero

/-- The accumulated reduction of a line item: the sum, over the records of that
line item in list order, of the signed contribution of the referenced journal
entry, added up from `0.0` with the addition of `F`. -/
def accumulatedReduction [Arith F] (db : DB F) (records : List DeletedRecord)
    (detailID : Int) : F :=
  ((records.filter (fun r => decide (r.DetailID = detailID))).map
    (fun r => journalContribution db r.JournalID)).foldl Arith.add Arith.zero

/-- The stored quantity that `SELECT quantity FROM form_detail WHERE id = ?` returns
for `detailID`, when there is such a line item. -/
def storedQuantity (db : DB F) (detailID : Int) : Option F :=
  (db.form_detail.find? (fun d => decide (d.id = detailID))).map (fun d => d.quantity)

/-- The remainder `currentQty - reducedQty` of a line item: its stored quantity in
`db` (zero when there is no such line item) minus the reduction `reduced`. -/
def newQuantity [Arith F] (db : DB F) (reduced : Int → F) (detailID : Int) : F :=
  Arith.sub ((storedQuantity db detailID).getD Arith.zero) (reduced detailID)

/-- The quantities written to line item `detailID` by the `UPDATE` statements of a
statement list, in order. -/
def updatesOf (detailID : Int) (stmts : List (Stmt F)) : List F :=
  stmts.filterMap (fun s =>
    match s with
    | .updateQuantity q d => if d = detailID then some q else none
    | .deleteIn _ _ => none)

/-- A header owns a line item: some `form_detail` row has `headerFk` equal to its id. -/
def ownsLineItem (db : DB F) (h : FormHeaderRow) : Bool :=
  db.form_detail.any (fun fd => decide (fd.headerFk = h.id))

/-- The columns of a header as `FindOrphanedHeaders` scans them. -/
def asOrphanedHeader (h : FormHeaderRow) : OrphanedHeader :=
  { ID := h.id, HeaderNo := h.headerNo, FormDate := h.formDate, PartnerFk := h.partnerFk,
    FormType := h.formType }

/-- A journal entry joins through its line item to a header: the two `INNER JOIN`s
of `GetRecordsToDelete` find a partner for it. -/
def joinsToHeader (db : DB F) (j : JournalRow F) : Prop :=
  ∃ fd ∈ db.form_detail, j.detailFk = fd.id ∧ ∃ fh ∈ db.form_header, fd.headerFk = fh.id

instance joinsToHeader.decidable (db : DB F) (j : JournalRow F) :
    Decidable (joinsToHeader db j) := by
  unfold joinsToHeader
  exact inferInstance

/-- The grouping key of a returned `ItemBalance`: `(referenceFk, itemFk, locationFk,
shopFk)`. -/
def ItemBalance.key (b : ItemBalance F) : Int × Int × Int × Int :=
  (b.ReferenceFk, b.ItemFk, b.LocationFk, b.ShopFk)

/-- The account-class-2 entries dated on or before the cutoff that carry the grouping
key `k` (with non-null `referenceFk`). -/
def groupEntries (db : DB F) (cutoffDate : Date) (k : Int × Int × Int × Int) :
    List (JournalRow F) :=
  db.journal.filter (fun j =>
    decide (j.accountFk = 2) && decide (j.journalDate ≤ cutoffDate) &&
      decide (groupKey j = (some k.1, k.2.1, k.2.2.1, k.2.2.2)))

/-- The identifiers named by the `DELETE FROM journal` statements of a statement
list, in order. -/
def journalDeleteIDs (stmts : List (Stmt F)) : List Int :=
  (stmts.filterMap (fun s =>
    match s with
    | .deleteIn .journal ids => some ids
    | _ => none)).flatten

/-! ## Concrete states used to instantiate the theorems -/

/-- Map iteration in insertion order. -/
def insertionOrder : KeyOrder :=
  { iter := fun ks => ks, perm := fun ks => List.Perm.refl ks }

/-- An environment without store faults. -/
def quietEnv : Env :=
  { faults := fun _ => false, journalOrder := insertionOrder, detailOrder := insertionOrder }

/-- An account-class-2 journal entry of group `(7, 1, 1, 1)`, dated day 5. -/
def ledgerEntry (id type : Int) (quantity : ℚ) (detailFk : Int) : JournalRow ℚ :=
  { id := id, accountFk := 2, referenceFk := some 7, itemFk := 1, locationFk := 1,
    shopFk := 1, type := type, quantity := quantity, journalDate := 5, detailFk := detailFk }

/-- The scenario `(+1,10), (-1,6), (-1,4)`: three entries of one group that all
reference line item 100, whose stored quantity is 10, owned by header 50. -/
def scenarioDB : DB ℚ :=
  { journal := [ledgerEntry 1 1 10 100, ledgerEntry 2 (-1) 6 100, ledgerEntry 3 (-1) 4 100]
    form_detail := [{ id := 100, headerFk := 50, quantity := 10 }]
    form_header := [{ id := 50, headerNo := "H-50", formDate := 1, partnerFk := 1,
                      formType := 1 }] }

/-- The three records of `scenarioDB`, as `GetRecordsToDelete` returns them. -/
def scenarioRecords : List DeletedRecord :=
  [{ JournalID := 1, DetailID := 100, HeaderID := 50, TxnDate := 5 },
   { JournalID := 2, DetailID := 100, HeaderID := 50, TxnDate := 5 },
   { JournalID := 3, DetailID := 100, HeaderID := 50, TxnDate := 5 }]

/-- A purchase of 5 (line item 100) and the sale of those 5 (line item 200): one
group `(7, 1, 1, 1)` with net balance zero. -/
def saleDB : DB ℚ :=
  { journal := [ledgerEntry 1 1 5 100, ledgerEntry 2 (-1) 5 200]
    form_detail := [{ id := 100, headerFk := 50, quantity := 5 },
                    { id := 200, headerFk := 60, quantity := 5 }]
    form_header := [{ id := 50, headerNo := "P-50", formDate := 1, partnerFk := 1,
                      formType := 1 },
                    { id := 60, headerNo := "S-60", formDate := 2, partnerFk := 2,
                      formType := 2 }] }

/-- The tables of `saleDB` with a third entry: 8 units of another item (`itemFk = 2`)
under the same `referenceFk = 7`, still in stock (net balance 8). -/
def sharedReferenceDB : DB ℚ :=
  { journal := saleDB.journal ++ [{ ledgerEntry 3 1 8 300 with itemFk := 2 }]
    form_detail := saleDB.form_detail ++ [{ id := 300, headerFk := 50, quantity := 8 }]
    form_header := saleDB.form_header }

/-- The zero-balance group `(7, 1, 1, 1)` of `saleDB` and `sharedReferenceDB`. -/
def zeroGroup : ItemBalance ℚ :=
  { ReferenceFk := 7, ItemFk := 1, LocationFk := 1, ShopFk := 1, TotalPurchases := 5,
    TotalSales := 5, NetBalance := 0, LastTxnDate := 5 }

/-- A zero-balance group whose two entries reference a line item that does not exist. -/
def danglingDB : DB ℚ :=
  { journal := [ledgerEntry 1 1 5 100, ledgerEntry 2 (-1) 5 100]
    form_detail := []
    form_header := [] }

/-- An environment whose store fails at operation 7 only: on `scenarioRecords` that
is `Commit`, after three lookups, one journal `DELETE`, one line-item read and one
`UPDATE`. -/
def commitFaultEnv : Env :=
  { faults := fun n => n == 7, journalOrder := insertionOrder, detailOrder := insertionOrder }

/-- Map iteration in reverse insertion order. -/
def reverseOrder : KeyOrder :=
  { iter := fun ks => ks.reverse, perm := fun ks => List.reverse_perm ks }

/-- An environment without store faults whose maps are iterated backwards. -/
def reversedEnv : Env :=
  { faults := fun _ => false, journalOrder := reverseOrder, detailOrder := reverseOrder }

/-- The two records of `saleDB`, as `GetRecordsToDelete` returns them. -/
def saleRecords : List DeletedRecord :=
  [{ JournalID := 1, DetailID := 100, HeaderID := 50, TxnDate := 5 },
   { JournalID := 2, DetailID := 200, HeaderID := 60, TxnDate := 5 }]

/-- Line item 100 holding the decimal `stored` and one purchase entry of the decimal
`reduced` on it. -/
def decimalDB (stored reduced : ℚ) : DB ℚ :=
  { journal := [{ id := 1, accountFk := 2, referenceFk := some 7, itemFk := 1, locationFk := 1,
                  shopFk := 1, type := 1, quantity := reduced, journalDate := 5,
                  detailFk := 100 }]
    form_detail := [{ id := 100, headerFk := 50, quantity := stored }]
    form_header := [{ id := 50, headerNo := "P-50", formDate := 1, partnerFk := 1,
                      formType := 1 }] }

/-- The one record of `decimalDB`. -/
def roundingRecords : List DeletedRecord :=
  [{ JournalID := 1, DetailID := 100, HeaderID := 50, TxnDate := 5 }]

/-- The tables of a state of exact decimals as a `DOUBLE` store keeps them: every
quantity rounded to binary64. -/
def DB.toBinary64 (db : DB ℚ) : DB Float64 :=
  { journal := db.journal.map (fun j =>
      { id := j.id, accountFk := j.accountFk, referenceFk := j.referenceFk, itemFk := j.itemFk,
        locationFk := j.locationFk, shopFk := j.shopFk, type := j.type,
        quantity := Float64.round j.quantity, journalDate := j.journalDate,
        detailFk := j.detailFk })
    form_detail := db.form_detail.map (fun d =>
      { id := d.id, headerFk := d.headerFk, quantity := Float64.round d.quantity })
    form_header := db.form_header }

/-- One group `(7, 1, 1, 1)` with the three entries `+q1`, `+q2` and `-q3`, in exact
decimals. -/
def threeEntryDB (q1 q2 q3 : ℚ) : DB ℚ :=
  { journal := [ledgerEntry 1 1 q1 100, ledgerEntry 2 1 q2 100, ledgerEntry 3 (-1) q3 100]
    form_detail := []
    form_header := [] }

/-- A live run without store faults. -/
def liveRun : Config × RunEnv :=
  ({ CutoffDate := 10, DryRun := false }, { deletion := quietEnv, orphanFaults := fun _ => false })

/-- A dry run without store faults. -/
def dryRun : Config × RunEnv :=
  ({ CutoffDate := 10, DryRun := true }, { deletion := quietEnv, orphanFaults := fun _ => false })

/-- The binary64 run of `main` on the rounded tables does what the exact run does:
the same groups, records, plan, orphaned headers and error, and the resulting tables
are the rounded tables of the exact run. -/
def runsAgree (run : Config × RunEnv) (db : DB ℚ) : Bool :=
  decide (((main run.1 run.2 db.toBinary64).zeroBalanceItems.map ItemBalance.key
      = (main run.1 run.2 db).zeroBalanceItems.map ItemBalance.key) ∧
    (main run.1 run.2 db.toBinary64).recordsToDelete = (main run.1 run.2 db).recordsToDelete ∧
    (main run.1 run.2 db.toBinary64).plan = (main run.1 run.2 db).plan ∧
    (main run.1 run.2 db.toBinary64).orphanedHeaders = (main run.1 run.2 db).orphanedHeaders ∧
    (main run.1 run.2 db.toBinary64).fatal = (main run.1 run.2 db).fatal ∧
    (main run.1 run.2 db.toBinary64).db = (main run.1 run.2 db).db.toBinary64)

/-! # Theorems -/

/-! ## deleteByIDs: the batches and the statements executed -/

theorem batches_of_ge (ids : List Int) (i : Nat) (h : ids.length ≤ i) :
    deleteByIDs.batches ids i = [] := by
  rw [deleteByIDs.batches]; simp [Nat.not_lt.mpr h]

theorem batch_eq (ids : List Int) (i : Nat) :
    (ids.take (if i + batchSize > ids.length then ids.length else i + batchSize)).drop i
      = (ids.drop i).take batchSize := by
  rw [List.drop_take]
  split
  · rw [List.take_of_length_le (by simp), List.take_of_length_le (by simp; omega)]
  · simp

theorem batches_of_lt (ids : List Int) (i : Nat) (h : i < ids.length) :
    deleteByIDs.batches ids i
      = (ids.drop i).take batchSize :: deleteByIDs.batches ids (i + batchSize) := by
  rw [deleteByIDs.batches, if_pos h, batch_eq]

theorem batches_flatten (ids : List Int) :
    ∀ (m i : Nat), ids.length - i = m → (deleteByIDs.batches ids i).flatten = ids.drop i := by
  intro m
  induction m using Nat.strong_induction_on with
  | _ m ih =>
    intro i hm
    by_cases h : i < ids.length
    · rw [batches_of_lt ids i h, List.flatten_cons,
        ih (ids.length - (i + batchSize)) (by simp only [batchSize]; omega) _ rfl,
        ← List.drop_drop, List.take_append_drop]
    · rw [batches_of_ge ids i (by omega), List.drop_eq_nil_of_le (by omega)]; rfl

theorem batches_length (ids : List Int) :
    ∀ (m i : Nat), ids.length - i = m →
      (deleteByIDs.batches ids i).length = (ids.length - i + 999) / 1000 := by
  intro m
  induction m using Nat.strong_induction_on with
  | _ m ih =>
    intro i hm
    by_cases h : i < ids.length
    · rw [batches_of_lt ids i h, List.length_cons,
        ih (ids.length - (i + batchSize)) (by simp only [batchSize]; omega) _ rfl]
      simp only [batchSize]
      omega
    · rw [batches_of_ge ids i (by omega)]
      simp only [List.length_nil]
      omega

theorem batches_ne_nil (ids : List Int) :
    ∀ (m i : Nat), ids.length - i = m → ∀ c ∈ deleteByIDs.batches ids i, c ≠ [] := by
  intro m
  induction m using Nat.strong_induction_on with
  | _ m ih =>
    intro i hm c hc
    by_cases h : i < ids.length
    · rw [batches_of_lt ids i h] at hc
      rcases List.mem_cons.mp hc with rfl | hc
      · intro hnil
        have := congrArg List.length hnil
        simp [batchSize] at this
        omega
      · exact ih (ids.length - (i + batchSize)) (by simp only [batchSize]; omega) _ rfl c hc
    · rw [batches_of_ge ids i (by omega)] at hc
      simp at hc

theorem batches_full (ids : List Int) :
    ∀ (m i : Nat), ids.length - i = m →
      ∀ c ∈ (deleteByIDs.batches ids i).dropLast, c.length = 1000 := by
  intro m
  induction m using Nat.strong_induction_on with
  | _ m ih =>
    intro i hm c hc
    by_cases h : i < ids.length
    · rw [batches_of_lt ids i h] at hc
      by_cases h2 : i + batchSize < ids.length
      · rw [batches_of_lt ids _ h2, List.dropLast_cons₂] at hc
        rcases List.mem_cons.mp hc with rfl | hc
        · simp [batchSize] at h2 ⊢; omega
        · rw [← batches_of_lt ids _ h2] at hc
          exact ih (ids.length - (i + batchSize)) (by simp only [batchSize]; omega) _ rfl c hc
      · rw [batches_of_ge ids _ (by omega)] at hc
        simp at hc
    · rw [batches_of_ge ids i (by omega)] at hc
      simp at hc

theorem applyStmt_deleteIn_nil (t : Table) (db : DB F) : applyStmt (.deleteIn t []) db = db := by
  cases t <;> simp [applyStmt]

theorem applyStmt_deleteIn_append (t : Table) (a b : List Int) (db : DB F) :
    applyStmt (.deleteIn t (a ++ b)) db
      = applyStmt (.deleteIn t b) (applyStmt (.deleteIn t a) db) := by
  cases t <;>
    simp only [applyStmt, List.filter_filter, List.mem_append, not_or, Bool.decide_and] <;>
    simp only [Bool.and_comm]

theorem loop_of_ge (t : Table) (ids : List Int) (i : Nat) (tx : Tx F) (h : ids.length ≤ i) :
    deleteByIDs.loop t ids i tx = (none, tx) := by
  rw [deleteByIDs.loop]; simp [Nat.not_lt.mpr h]

theorem loop_of_lt (t : Table) (ids : List Int) (i : Nat) (tx : Tx F) (h : i < ids.length) :
    deleteByIDs.loop t ids i tx
      = match tx.Exec (.deleteIn t ((ids.drop i).take batchSize)) with
        | (some err, tx') => (some err, tx')
        | (none, tx') => deleteByIDs.loop t ids (i + batchSize) tx' := by
  rw [deleteByIDs.loop, if_pos h]
  simp only [batch_eq]

theorem loop_trace (t : Table) (ids : List Int) :
    ∀ (m i : Nat) (tx : Tx F), ids.length - i = m →
      ∃ k, k ≤ (deleteByIDs.batches ids i).length ∧
        (deleteByIDs.loop t ids i tx).2.executed
          = tx.executed ++ ((deleteByIDs.batches ids i).take k).map (Stmt.deleteIn t) ∧
        ((deleteByIDs.loop t ids i tx).1 = none ↔ k = (deleteByIDs.batches ids i).length) ∧
        ((∀ j, j < (deleteByIDs.batches ids i).length → tx.faults (tx.ops + j) = false) →
          (deleteByIDs.loop t ids i tx).1 = none) := by
  intro m
  induction m using Nat.strong_induction_on with
  | _ m ih =>
    intro i tx hm
    by_cases h : i < ids.length
    · rw [batches_of_lt ids i h, loop_of_lt t ids i tx h]
      cases hf : tx.faults tx.ops with
      | true =>
        refine ⟨0, Nat.zero_le _, ?_, ?_, ?_⟩
        · simp [Tx.Exec, hf]
        · simp [Tx.Exec, hf]
        · intro hno
          have := hno 0 (by simp)
          simp [hf] at this
      | false =>
        obtain ⟨k, hk, hex, hiff, hall⟩ :=
          ih (ids.length - (i + batchSize)) (by simp only [batchSize]; omega) (i + batchSize)
            { tx with db := applyStmt (.deleteIn t ((ids.drop i).take batchSize)) tx.db,
                      ops := tx.ops + 1,
                      executed := tx.executed ++ [.deleteIn t ((ids.drop i).take batchSize)] } rfl
        refine ⟨k + 1, by simpa using hk, ?_, ?_, ?_⟩
        · simp only [Tx.Exec, hf, Bool.false_eq_true, if_false, hex]
          simp
        · simp only [Tx.Exec, hf, Bool.false_eq_true, if_false, hiff]
          simp
        · intro hno
          simp only [Tx.Exec, hf, Bool.false_eq_true, if_false]
          apply hall
          intro j hj
          have := hno (j + 1) (by simpa using hj)
          simpa [Nat.add_assoc, Nat.add_comm 1 j] using this
    · rw [batches_of_ge ids i (by omega), loop_of_ge t ids i tx (by omega)]
      exact ⟨0, by simp⟩

theorem loop_ok (t : Table) (ids : List Int) :
    ∀ (m i : Nat) (tx : Tx F), ids.length - i = m → (deleteByIDs.loop t ids i tx).1 = none →
      (deleteByIDs.loop t ids i tx).2
        = { db := applyStmt (.deleteIn t (ids.drop i)) tx.db, faults := tx.faults,
            ops := tx.ops + (deleteByIDs.batches ids i).length,
            executed := tx.executed ++ (deleteByIDs.batches ids i).map (Stmt.deleteIn t),
            committed := tx.committed } := by
  intro m
  induction m using Nat.strong_induction_on with
  | _ m ih =>
    intro i tx hm
    by_cases h : i < ids.length
    · rw [batches_of_lt ids i h, loop_of_lt t ids i tx h]
      cases hf : tx.faults tx.ops with
      | true => simp [Tx.Exec, hf]
      | false =>
        simp only [Tx.Exec, hf, Bool.false_eq_true, if_false]
        intro hnone
        rw [ih (ids.length - (i + batchSize)) (by simp only [batchSize]; omega) (i + batchSize)
          _ rfl hnone]
        have hsplit : ids.drop i = (ids.drop i).take batchSize ++ ids.drop (i + batchSize) := by
          rw [← List.drop_drop, List.take_append_drop]
        conv_rhs => rw [hsplit, applyStmt_deleteIn_append]
        simp [Nat.add_assoc, Nat.add_comm 1]
    · rw [batches_of_ge ids i (by omega), loop_of_ge t ids i tx (by omega),
        List.drop_eq_nil_of_le (by omega), applyStmt_deleteIn_nil]
      intro _
      simp

/-- C2. `deleteByIDs` cuts `ids` into consecutive chunks: their concatenation is
`ids`, there are `ceil(len(ids) / 1000)` of them, none is empty and every chunk but
the last holds exactly 1000 identifiers.  It executes one `DELETE` per chunk, in
order, stopping only at a statement the store rejects: it returns `nil` exactly when
it has executed one statement for every chunk, which it does whenever no statement
fails.  For the empty list it executes nothing and returns `nil`. -/
theorem deleteByIDs_one_delete_per_chunk (tx : Tx F) (tableName : Table) (ids : List Int) :
    ∃ (chunks : List (List Int)) (k : Nat),
      chunks.flatten = ids ∧
      chunks.length = (ids.length + 999) / 1000 ∧
      (∀ c ∈ chunks, c ≠ []) ∧
      (∀ c ∈ chunks.dropLast, c.length = 1000) ∧
      k ≤ chunks.length ∧
      (deleteByIDs tx tableName ids).2.executed
        = tx.executed ++ (chunks.take k).map (Stmt.deleteIn tableName) ∧
      ((deleteByIDs tx tableName ids).1 = none ↔ k = chunks.length) ∧
      ((∀ j, j < chunks.length → tx.faults (tx.ops + j) = false) →
        (deleteByIDs tx tableName ids).1 = none) ∧
      (ids = [] → deleteByIDs tx tableName ids = (none, tx)) := by
  obtain ⟨k, hk, hex, hiff, hall⟩ := loop_trace tableName ids ids.length 0 tx rfl
  have hloop : deleteByIDs tx tableName ids = deleteByIDs.loop tableName ids 0 tx := by
    unfold deleteByIDs
    split
    · rw [loop_of_ge tableName ids 0 tx (by omega)]
    · rfl
  refine ⟨deleteByIDs.batches ids 0, k, ?_, ?_, batches_ne_nil ids _ 0 rfl,
    batches_full ids _ 0 rfl, hk, ?_, ?_, ?_, ?_⟩
  · simpa using batches_flatten ids _ 0 rfl
  · simpa using batches_length ids _ 0 rfl
  · rw [hloop]; exact hex
  · rw [hloop]; exact hiff
  · rw [hloop]; exact hall
  · intro hnil
    subst hnil
    simp [deleteByIDs]

/-! ## PerformDeletion: the accumulation loop -/

theorem GoMap.set_keys_nodup {V : Type} (m : GoMap V) (k : Int) (v : V) (h : m.keys.Nodup) :
    (m.set k v).keys.Nodup := by
  unfold GoMap.set
  dsimp only
  split
  · exact h
  · rename_i hk
    exact List.nodup_append.mpr ⟨h, List.nodup_singleton k, by
      intro a ha hb
      rw [List.mem_singleton] at hb
      exact hk (hb ▸ ha)⟩

theorem GoMap.mem_set_keys {V : Type} (m : GoMap V) (k : Int) (v : V) (d : Int) :
    d ∈ (m.set k v).keys ↔ d ∈ m.keys ∨ d = k := by
  unfold GoMap.set
  dsimp only
  split
  · rename_i hk
    constructor
    · exact Or.inl
    · rintro (h | rfl)
      · exact h
      · exact hk
  · simp

theorem accumulate_tx [Arith F] (records : List DeletedRecord) :
    ∀ (tx : Tx F) (dq : GoMap F) (jm : GoMap (List Int)),
      (PerformDeletion.accumulate tx dq jm records).2.1.db = tx.db ∧
      (PerformDeletion.accumulate tx dq jm records).2.1.executed = tx.executed ∧
      (PerformDeletion.accumulate tx dq jm records).2.1.faults = tx.faults := by
  induction records with
  | nil => intro tx dq jm; simp [PerformDeletion.accumulate]
  | cons r rest ih =>
    intro tx dq jm
    rw [PerformDeletion.accumulate]
    cases hf : tx.faults tx.ops with
    | true => simp [Tx.QueryJournalRow, hf]
    | false =>
      cases hfind : tx.db.journal.find? (fun j => decide (j.id = r.JournalID)) with
      | none => simp [Tx.QueryJournalRow, hf, hfind]
      | some j =>
        simp only [Tx.QueryJournalRow, hf, hfind, Bool.false_eq_true, if_false]
        exact ih _ _ _

theorem accumulate_ok [Arith F] (records : List DeletedRecord) :
    ∀ (tx : Tx F) (dq : GoMap F) (jm : GoMap (List Int)),
      (PerformDeletion.accumulate tx dq jm records).1 = none →
      (∀ r ∈ records, (tx.db.journal.find? (fun j => decide (j.id = r.JournalID))).isSome) ∧
      (∀ d, (PerformDeletion.accumulate tx dq jm records).2.2.1.val d
              = ((records.filter (fun r => decide (r.DetailID = d))).map
                  (fun r => journalContribution tx.db r.JournalID)).foldl Arith.add (dq.val d)) ∧
      (∀ d, (PerformDeletion.accumulate tx dq jm records).2.2.2.val d
              = jm.val d ++ (records.filter (fun r => decide (r.DetailID = d))).map
                  (fun r => r.JournalID)) ∧
      (dq.keys.Nodup → (PerformDeletion.accumulate tx dq jm records).2.2.1.keys.Nodup) ∧
      (∀ d, d ∈ (PerformDeletion.accumulate tx dq jm records).2.2.1.keys
              ↔ d ∈ dq.keys ∨ d ∈ records.map (fun r => r.DetailID)) ∧
      (jm.keys.Nodup → (PerformDeletion.accumulate tx dq jm records).2.2.2.keys.Nodup) ∧
      (∀ d, d ∈ (PerformDeletion.accumulate tx dq jm records).2.2.2.keys
              ↔ d ∈ jm.keys ∨ d ∈ records.map (fun r => r.DetailID)) ∧
      (PerformDeletion.accumulate tx dq jm records).2.1.ops = tx.ops + records.length := by
  induction records with
  | nil =>
    intro tx dq jm _
    simp [PerformDeletion.accumulate]
  | cons r rest ih =>
    intro tx dq jm
    rw [PerformDeletion.accumulate]
    cases hf : tx.faults tx.ops with
    | true => simp [Tx.QueryJournalRow, hf]
    | false =>
      cases hfind : tx.db.journal.find? (fun j => decide (j.id = r.JournalID)) with
      | none => simp [Tx.QueryJournalRow, hf, hfind]
      | some j =>
        simp only [Tx.QueryJournalRow, hf, hfind, Bool.false_eq_true, if_false]
        intro hnone
        obtain ⟨h1, h2, h3, h4, h5, h6, h7, h8⟩ := ih _ _ _ hnone
        refine ⟨?_, ?_, ?_, ?_, ?_, ?_, ?_, ?_⟩
        · intro r' hr'
          rcases List.mem_cons.mp hr' with rfl | hr'
          · simp [hfind]
          · exact h1 r' hr'
        · intro d
          rw [h2 d]
          simp only [GoMap.set, List.filter_cons]
          by_cases hd : r.DetailID = d
          · subst hd
            simp [journalContribution, hfind]
          · have hd' : ¬ d = r.DetailID := fun h => hd h.symm
            simp [hd, hd']
        · intro d
          rw [h3 d]
          simp only [GoMap.set, List.filter_cons]
          by_cases hd : r.DetailID = d
          · subst hd
            simp
          · have hd' : ¬ d = r.DetailID := fun h => hd h.symm
            simp [hd, hd']
        · intro hnd
          exact h4 (GoMap.set_keys_nodup _ _ _ hnd)
        · intro d
          rw [h5 d, GoMap.mem_set_keys]
          simp only [List.map_cons, List.mem_cons]
          tauto
        · intro hnd
          exact h6 (GoMap.set_keys_nodup _ _ _ hnd)
        · intro d
          rw [h7 d, GoMap.mem_set_keys]
          simp only [List.map_cons, List.mem_cons]
          tauto
        · rw [h8]
          simp
          omega

/-! ## PerformDeletion: the reconciliation loop -/

theorem find_update_ne (rows : List (FormDetailRow F)) (q : F) (d d' : Int) (h : d' ≠ d) :
    ((rows.map (fun r => if r.id = d then { r with quantity := q } else r)).find?
        (fun r => decide (r.id = d'))).map (fun r => r.quantity)
      = (rows.find? (fun r => decide (r.id = d'))).map (fun r => r.quantity) := by
  have hcomp : ((fun r : FormDetailRow F => decide (r.id = d')) ∘
      fun r => if r.id = d then { r with quantity := q } else r)
        = fun r => decide (r.id = d') := by
    funext r
    simp only [Function.comp]
    split <;> rfl
  rw [List.find?_map, hcomp, Option.map_map]
  cases hfind : rows.find? (fun r => decide (r.id = d')) with
  | none => rfl
  | some r =>
    have hr : r.id = d' := by simpa using List.find?_some hfind
    have hne : ¬ r.id = d := fun h' => h (hr.symm.trans h')
    simp [Function.comp, hne]

theorem storedQuantity_update_ne (db : DB F) (q : F) (d d' : Int) (h : d' ≠ d) :
    storedQuantity (applyStmt (.updateQuantity q d) db) d' = storedQuantity db d' := by
  simp only [storedQuantity, applyStmt]
  exact find_update_ne db.form_detail q d d' h

theorem newQuantity_update_ne [Arith F] (db : DB F) (reduced : Int → F) (q : F) (d d' : Int)
    (h : d' ≠ d) :
    newQuantity (applyStmt (.updateQuantity q d) db) reduced d' = newQuantity db reduced d' := by
  simp only [newQuantity, storedQuantity_update_ne db q d d' h]

theorem reconcile_ok [Arith F] (dq : GoMap F) :
    ∀ (ks : List Int) (tx : Tx F) (dd : List Int) (du : Nat), ks.Nodup →
      (PerformDeletion.reconcile dq tx dd du ks).1 = none →
      (∀ d ∈ ks, (storedQuantity tx.db d).isSome) ∧
      (PerformDeletion.reconcile dq tx dd du ks).2.2.1
        = dd ++ ks.filter (fun d => Arith.le (newQuantity tx.db dq.val d) Arith.eps) ∧
      (PerformDeletion.reconcile dq tx dd du ks).2.1.executed
        = tx.executed ++ (ks.filter (fun d => !Arith.le (newQuantity tx.db dq.val d) Arith.eps)).map
            (fun d => Stmt.updateQuantity (newQuantity tx.db dq.val d) d) ∧
      (PerformDeletion.reconcile dq tx dd du ks).2.1.db
        = { journal := tx.db.journal
            form_detail := tx.db.form_detail.map (fun r =>
              if r.id ∈ ks ∧ Arith.le (newQuantity tx.db dq.val r.id) Arith.eps = false then
                { r with quantity := newQuantity tx.db dq.val r.id }
              else r)
            form_header := tx.db.form_header } ∧
      (PerformDeletion.reconcile dq tx dd du ks).2.1.faults = tx.faults ∧
      (PerformDeletion.reconcile dq tx dd du ks).2.2.2
        = du + (ks.filter (fun d => !Arith.le (newQuantity tx.db dq.val d) Arith.eps)).length := by
  intro ks
  induction ks with
  | nil =>
    intro tx dd du _ _
    simp [PerformDeletion.reconcile]
  | cons d ks ih =>
    intro tx dd du hnd
    have hdks : d ∉ ks := (List.nodup_cons.mp hnd).1
    have hnd' : ks.Nodup := (List.nodup_cons.mp hnd).2
    rw [PerformDeletion.reconcile]
    cases hf : tx.faults tx.ops with
    | true => simp [Tx.QueryDetailRow, hf]
    | false =>
      cases hfind : tx.db.form_detail.find? (fun r => decide (r.id = d)) with
      | none => simp [Tx.QueryDetailRow, hf, hfind]
      | some row =>
        have hstored : storedQuantity tx.db d = some row.quantity := by
          simp [storedQuantity, hfind]
        have hnew : Arith.sub row.quantity (dq.val d) = newQuantity tx.db dq.val d := by
          simp [newQuantity, hstored]
        simp only [Tx.QueryDetailRow, hf, hfind, Bool.false_eq_true, if_false, hnew]
        by_cases hle : Arith.le (newQuantity tx.db dq.val d) Arith.eps = true
        · have hdel : ∀ l : List Int,
              (d :: l).filter (fun d => Arith.le (newQuantity tx.db dq.val d) Arith.eps)
                = d :: l.filter (fun d => Arith.le (newQuantity tx.db dq.val d) Arith.eps) := by
            intro l
            rw [List.filter_cons, if_pos hle]
          have hupd : ∀ l : List Int,
              (d :: l).filter (fun d => !Arith.le (newQuantity tx.db dq.val d) Arith.eps)
                = l.filter (fun d => !Arith.le (newQuantity tx.db dq.val d) Arith.eps) := by
            intro l
            rw [List.filter_cons, if_neg (by rw [hle]; decide)]
          rw [if_pos hle]
          intro hnone
          obtain ⟨h1, h2, h3, h4, h5, h6⟩ := ih _ _ _ hnd' hnone
          dsimp only at h1 h2 h3 h4 h5 h6
          refine ⟨?_, ?_, ?_, ?_, ?_, ?_⟩
          · intro d' hd'
            rcases List.mem_cons.mp hd' with heq | hmem
            · rw [heq, hstored]; rfl
            · exact h1 d' hmem
          · rw [h2, hdel, List.append_assoc]; rfl
          · rw [h3, hupd]
          · rw [h4]
            congr 1
            apply List.map_congr_left
            intro r _
            by_cases hrd : r.id = d
            · rw [if_neg, if_neg]
              · rintro ⟨_, h⟩; rw [hrd, hle] at h; exact Bool.noConfusion h
              · rintro ⟨hm, _⟩; rw [hrd] at hm; exact hdks hm
            · simp only [List.mem_cons, hrd, false_or]
          · exact h5
          · rw [h6, hupd]
        · have hgt : Arith.le (newQuantity tx.db dq.val d) Arith.eps = false := by
            simpa using hle
          have hdel : ∀ l : List Int,
              (d :: l).filter (fun d => Arith.le (newQuantity tx.db dq.val d) Arith.eps)
                = l.filter (fun d => Arith.le (newQuantity tx.db dq.val d) Arith.eps) := by
            intro l
            rw [List.filter_cons, if_neg hle]
          have hupd : ∀ l : List Int,
              (d :: l).filter (fun d => !Arith.le (newQuantity tx.db dq.val d) Arith.eps)
                = d :: l.filter (fun d => !Arith.le (newQuantity tx.db dq.val d) Arith.eps) := by
            intro l
            rw [List.filter_cons, if_pos (by rw [hgt]; rfl)]
          rw [if_neg hle]
          cases hf2 : tx.faults (tx.ops + 1) with
          | true => simp [Tx.Exec, hf2]
          | false =>
            simp only [Tx.Exec, hf2, Bool.false_eq_true, if_false]
            intro hnone
            obtain ⟨h1, h2, h3, h4, h5, h6⟩ := ih _ _ _ hnd' hnone
            dsimp only at h1 h2 h3 h4 h5 h6
            have hq : ∀ d', d' ≠ d →
                newQuantity (applyStmt (.updateQuantity (newQuantity tx.db dq.val d) d) tx.db)
                    dq.val d' = newQuantity tx.db dq.val d' :=
              fun d' hne => newQuantity_update_ne _ _ _ _ _ hne
            have hks : ∀ d' ∈ ks, d' ≠ d := fun d' hmem heq => hdks (heq ▸ hmem)
            have hfilt : ∀ (p : F → Bool),
                ks.filter (fun d' => p (newQuantity
                    (applyStmt (.updateQuantity (newQuantity tx.db dq.val d) d) tx.db) dq.val d'))
                  = ks.filter (fun d' => p (newQuantity tx.db dq.val d')) := by
              intro p
              apply List.filter_congr
              intro d' hmem
              rw [hq d' (hks d' hmem)]
            refine ⟨?_, ?_, ?_, ?_, ?_, ?_⟩
            · intro d' hd'
              rcases List.mem_cons.mp hd' with heq | hmem
              · rw [heq, hstored]; rfl
              · have := h1 d' hmem
                rwa [storedQuantity_update_ne _ _ _ _ (hks d' hmem)] at this
            · rw [h2, hfilt (fun q => Arith.le q Arith.eps), hdel]
            · rw [h3, hfilt (fun q => !Arith.le q Arith.eps), hupd,
                List.map_cons, List.append_assoc, List.singleton_append]
              congr 2
              apply List.map_congr_left
              intro d' hmem
              rw [hq d' (hks d' (List.mem_of_mem_filter hmem))]
            · rw [h4]
              have hform : (applyStmt (.updateQuantity (newQuantity tx.db dq.val d) d) tx.db).form_detail
                  = tx.db.form_detail.map (fun r =>
                      if r.id = d then { r with quantity := newQuantity tx.db dq.val d } else r) := rfl
              have hj : (applyStmt (.updateQuantity (newQuantity tx.db dq.val d) d) tx.db).journal
                  = tx.db.journal := rfl
              have hh : (applyStmt (.updateQuantity (newQuantity tx.db dq.val d) d) tx.db).form_header
                  = tx.db.form_header := rfl
              rw [hform, hj, hh, List.map_map]
              congr 1
              apply List.map_congr_left
              intro r _
              simp only [Function.comp]
              by_cases hrd : r.id = d
              · rw [if_pos hrd, if_neg, if_pos]
                · rw [hrd]
                · exact ⟨by rw [hrd]; exact List.mem_cons_self _ _, by rw [hrd]; exact hgt⟩
                · rintro ⟨hm, _⟩
                  exact hdks (hrd ▸ hm)
              · rw [if_neg hrd, hq r.id hrd]
                simp only [List.mem_cons, hrd, false_or]
            · exact h5
            · rw [h6, hfilt (fun q => !Arith.le q Arith.eps), hupd, List.length_cons]
              omega

/-! ## PerformDeletion: the whole body -/

theorem deleteByIDs_eq_loop (tx : Tx F) (t : Table) (ids : List Int) :
    deleteByIDs tx t ids = deleteByIDs.loop t ids 0 tx := by
  unfold deleteByIDs
  split
  · rw [loop_of_ge t ids 0 tx (by omega)]
  · rfl

theorem deleteByIDs_guarded (tx : Tx F) (t : Table) (ids : List Int) :
    (if ids.length > 0 then deleteByIDs tx t ids else (none, tx)) = deleteByIDs tx t ids := by
  split
  · rfl
  · rename_i h
    have : ids.length = 0 := by omega
    simp [deleteByIDs, this]

theorem deleteByIDs_ok (tx : Tx F) (t : Table) (ids : List Int)
    (h : (deleteByIDs tx t ids).1 = none) :
    (deleteByIDs tx t ids).2
      = { db := applyStmt (.deleteIn t ids) tx.db, faults := tx.faults,
          ops := tx.ops + (deleteByIDs.batches ids 0).length,
          executed := tx.executed ++ (deleteByIDs.batches ids 0).map (Stmt.deleteIn t),
          committed := tx.committed } := by
  rw [deleteByIDs_eq_loop] at h ⊢
  simpa using loop_ok t ids ids.length 0 tx rfl h

theorem deleteByIDs_executed (tx : Tx F) (t : Table) (ids : List Int) :
    ∀ s ∈ (deleteByIDs tx t ids).2.executed,
      s ∈ tx.executed ∨ ∃ b, s = Stmt.deleteIn t b := by
  intro s hs
  obtain ⟨k, _, hex, _, _⟩ := loop_trace t ids ids.length 0 tx rfl
  rw [deleteByIDs_eq_loop, hex, List.mem_append, List.mem_map] at hs
  rcases hs with hs | ⟨b, _, rfl⟩
  · exact Or.inl hs
  · exact Or.inr ⟨b, rfl⟩

theorem reconcile_executed [Arith F] (dq : GoMap F) :
    ∀ (ks : List Int) (tx : Tx F) (dd : List Int) (du : Nat),
      ∀ s ∈ (PerformDeletion.reconcile dq tx dd du ks).2.1.executed,
        s ∈ tx.executed ∨ ∃ q d, s = Stmt.updateQuantity q d ∧ Arith.le q Arith.eps = false := by
  intro ks
  induction ks with
  | nil =>
    intro tx dd du s hs
    exact Or.inl (by simpa [PerformDeletion.reconcile] using hs)
  | cons d ks ih =>
    intro tx dd du s
    rw [PerformDeletion.reconcile]
    cases hf : tx.faults tx.ops with
    | true =>
      simp only [Tx.QueryDetailRow, hf, if_true]
      exact Or.inl
    | false =>
      cases hfind : tx.db.form_detail.find? (fun r => decide (r.id = d)) with
      | none =>
        simp only [Tx.QueryDetailRow, hf, hfind, Bool.false_eq_true, if_false]
        exact Or.inl
      | some row =>
        simp only [Tx.QueryDetailRow, hf, hfind, Bool.false_eq_true, if_false]
        by_cases hle : Arith.le (Arith.sub row.quantity (dq.val d)) Arith.eps = true
        · rw [if_pos hle]
          intro hs
          exact ih { tx with ops := tx.ops + 1 } _ _ s hs
        · rw [if_neg hle]
          cases hf2 : tx.faults (tx.ops + 1) with
          | true =>
            simp only [Tx.Exec, hf2, if_true]
            exact Or.inl
          | false =>
            simp only [Tx.Exec, hf2, Bool.false_eq_true, if_false]
            intro hs
            rcases ih _ _ _ s hs with h | h
            · rcases List.mem_append.mp h with h | h
              · exact Or.inl h
              · rw [List.mem_singleton] at h
                exact Or.inr ⟨_, _, h, by simpa using hle⟩
            · exact Or.inr h

theorem newQuantity_congr [Arith F] (db db' : DB F) (reduced reduced' : Int → F)
    (h : db'.form_detail = db.form_detail) (hr : ∀ d, reduced' d = reduced d) (d : Int) :
    newQuantity db' reduced' d = newQuantity db reduced d := by
  simp only [newQuantity, storedQuantity, h, hr]

theorem body_ok [Arith F] (env : Env) (tx : Tx F) (records : List DeletedRecord)
    (h : (PerformDeletion.body env tx records).1 = none) :
    ∃ (ks allJ : List Int),
      ks.Nodup ∧ (∀ d, d ∈ ks ↔ d ∈ records.map (fun r => r.DetailID)) ∧
      (∀ x, x ∈ allJ ↔ x ∈ records.map (fun r => r.JournalID)) ∧
      (∀ r ∈ records, (tx.db.journal.find? (fun j => decide (j.id = r.JournalID))).isSome) ∧
      (∀ d ∈ ks, (storedQuantity tx.db d).isSome) ∧
      (PerformDeletion.body env tx records).2.2
        = ⟨allJ,
           ks.filter (fun d =>
             Arith.le (newQuantity tx.db (accumulatedReduction tx.db records) d) Arith.eps),
           (ks.filter (fun d =>
             !Arith.le (newQuantity tx.db (accumulatedReduction tx.db records) d) Arith.eps)).length⟩ ∧
      (PerformDeletion.body env tx records).2.1.executed
        = tx.executed ++ (deleteByIDs.batches allJ 0).map (Stmt.deleteIn .journal)
          ++ (ks.filter (fun d =>
                !Arith.le (newQuantity tx.db (accumulatedReduction tx.db records) d) Arith.eps)).map
              (fun d => Stmt.updateQuantity
                (newQuantity tx.db (accumulatedReduction tx.db records) d) d)
          ++ (deleteByIDs.batches (ks.filter (fun d =>
                Arith.le (newQuantity tx.db (accumulatedReduction tx.db records) d) Arith.eps)) 0).map
              (Stmt.deleteIn .form_detail) ∧
      (PerformDeletion.body env tx records).2.1.db
        = { journal := tx.db.journal.filter (fun j => decide (j.id ∉ allJ))
            form_detail := (tx.db.form_detail.map (fun r =>
              if r.id ∈ ks ∧
                  Arith.le (newQuantity tx.db (accumulatedReduction tx.db records) r.id) Arith.eps = false then
                { r with quantity := newQuantity tx.db (accumulatedReduction tx.db records) r.id }
              else r)).filter (fun r => decide (r.id ∉ ks.filter (fun d =>
                Arith.le (newQuantity tx.db (accumulatedReduction tx.db records) d) Arith.eps)))
            form_header := tx.db.form_header } ∧
      (PerformDeletion.body env tx records).2.1.faults = tx.faults := by
  rcases hacc : PerformDeletion.accumulate tx (GoMap.empty Arith.zero) (GoMap.empty []) records
    with ⟨e, tx1, dq, jm⟩
  have htx := accumulate_tx records tx (GoMap.empty Arith.zero) (GoMap.empty [])
  rw [hacc] at htx
  obtain ⟨htx_db, htx_ex, htx_f⟩ := htx
  dsimp only at htx_db htx_ex htx_f
  unfold PerformDeletion.body at h ⊢
  rw [hacc] at h ⊢
  cases e with
  | some err => simp at h
  | none =>
    have hok := accumulate_ok records tx (GoMap.empty Arith.zero) (GoMap.empty []) (by rw [hacc])
    rw [hacc] at hok
    obtain ⟨a1, a2, a3, a4, a5, a6, a7, _⟩ := hok
    dsimp only at a1 a2 a3 a4 a5 a6 a7
    have hdq : ∀ d, dq.val d = accumulatedReduction tx.db records d := by
      intro d; rw [a2 d]; rfl
    have hjm : ∀ d, jm.val d
        = (records.filter (fun r => decide (r.DetailID = d))).map (fun r => r.JournalID) := by
      intro d; rw [a3 d]; simp [GoMap.empty]
    have hdqk : dq.keys.Nodup := a4 (by simp [GoMap.empty])
    have hdqm : ∀ d, d ∈ dq.keys ↔ d ∈ records.map (fun r => r.DetailID) := by
      intro d; rw [a5 d]; simp [GoMap.empty]
    have hjmm : ∀ d, d ∈ jm.keys ↔ d ∈ records.map (fun r => r.DetailID) := by
      intro d; rw [a7 d]; simp [GoMap.empty]
    dsimp only at h ⊢
    rw [deleteByIDs_guarded] at h ⊢
    rcases hdel1 : deleteByIDs tx1 .journal
        ((env.journalOrder.iter jm.keys).map jm.val).flatten with ⟨e1, tx2⟩
    rw [hdel1] at h
    cases e1 with
    | some err => simp at h
    | none =>
      have hd1 := deleteByIDs_ok tx1 .journal _ (by rw [hdel1])
      rw [hdel1] at hd1
      dsimp only at hd1
      have h2db : tx2.db = applyStmt (.deleteIn .journal
          ((env.journalOrder.iter jm.keys).map jm.val).flatten) tx.db := by
        rw [← htx_db]; exact congrArg Tx.db hd1
      have h2ex : tx2.executed = tx.executed ++ (deleteByIDs.batches
          ((env.journalOrder.iter jm.keys).map jm.val).flatten 0).map (Stmt.deleteIn .journal) := by
        rw [← htx_ex]; exact congrArg Tx.executed hd1
      have h2f : tx2.faults = tx.faults := by
        rw [hd1]; exact htx_f
      clear hd1
      dsimp only at h ⊢
      rcases hrec : PerformDeletion.reconcile dq tx2 [] 0 (env.detailOrder.iter dq.keys)
        with ⟨e2, tx3, dd, du⟩
      rw [hrec] at h
      cases e2 with
      | some err => simp at h
      | none =>
        have hks : (env.detailOrder.iter dq.keys).Nodup :=
          (env.detailOrder.perm dq.keys).nodup_iff.mpr hdqk
        have hr := reconcile_ok dq _ tx2 [] 0 hks (by rw [hrec])
        rw [hrec] at hr
        obtain ⟨r1, r2, r3, r4, r5, r6⟩ := hr
        dsimp only at r1 r2 r3 r4 r5 r6 h ⊢
        rw [deleteByIDs_guarded] at h ⊢
        rcases hdel2 : deleteByIDs tx3 .form_detail dd with ⟨e3, tx4⟩
        rw [hdel2] at h
        cases e3 with
        | some err => simp at h
        | none =>
          have hd2 := deleteByIDs_ok tx3 .form_detail _ (by rw [hdel2])
          rw [hdel2] at hd2
          dsimp only at hd2
          have h4db : tx4.db = applyStmt (.deleteIn .form_detail dd) tx3.db := congrArg Tx.db hd2
          have h4ex : tx4.executed = tx3.executed
              ++ (deleteByIDs.batches dd 0).map (Stmt.deleteIn .form_detail) :=
            congrArg Tx.executed hd2
          have h4f : tx4.faults = tx3.faults := by rw [hd2]
          clear hd2
          dsimp only
          have hform2 : tx2.db.form_detail = tx.db.form_detail := by
            rw [h2db]; rfl
          have hnq : ∀ d, newQuantity tx2.db dq.val d
              = newQuantity tx.db (accumulatedReduction tx.db records) d :=
            fun d => newQuantity_congr tx.db tx2.db _ _ hform2 hdq d
          have hfd : ∀ p : F → Bool,
              (env.detailOrder.iter dq.keys).filter (fun d => p (newQuantity tx2.db dq.val d))
                = (env.detailOrder.iter dq.keys).filter (fun d =>
                    p (newQuantity tx.db (accumulatedReduction tx.db records) d)) := by
            intro p
            apply List.filter_congr
            intro d _
            rw [hnq d]
          rw [hfd (fun q => Arith.le q Arith.eps)] at r2
          rw [hfd (fun q => !Arith.le q Arith.eps)] at r3 r6
          simp only [List.nil_append, Nat.zero_add] at r2 r6
          refine ⟨env.detailOrder.iter dq.keys,
            ((env.journalOrder.iter jm.keys).map jm.val).flatten, hks, ?_, ?_, ?_, ?_, ?_, ?_, ?_, ?_⟩
          · intro d
            rw [(env.detailOrder.perm dq.keys).mem_iff, hdqm]
          · intro x
            simp only [List.mem_flatten, List.mem_map, (env.journalOrder.perm jm.keys).mem_iff]
            constructor
            · rintro ⟨l, ⟨d, _, rfl⟩, hx⟩
              rw [hjm d, List.mem_map] at hx
              obtain ⟨r, hr, rfl⟩ := hx
              exact ⟨r, List.mem_of_mem_filter hr, rfl⟩
            · rintro ⟨r, hr, rfl⟩
              refine ⟨jm.val r.DetailID, ⟨r.DetailID, ?_, rfl⟩, ?_⟩
              · rw [hjmm]; exact List.mem_map.mpr ⟨r, hr, rfl⟩
              · rw [hjm, List.mem_map]
                exact ⟨r, List.mem_filter.mpr ⟨hr, by simp⟩, rfl⟩
          · exact a1
          · intro d hd
            have := r1 d hd
            simpa only [storedQuantity, hform2] using this
          · rw [r2, r6]
          · rw [h4ex, r3, h2ex, r2]
            simp only [hnq]
          · have hj2 : tx2.db.journal = tx.db.journal.filter (fun j =>
                decide (j.id ∉ ((env.journalOrder.iter jm.keys).map jm.val).flatten)) := by
              rw [h2db]; rfl
            have hh2 : tx2.db.form_header = tx.db.form_header := by
              rw [h2db]; rfl
            rw [h4db, r4, r2]
            simp only [hnq, hform2, hj2, hh2, applyStmt]
          · rw [h4f, r5, h2f]

theorem body_executed [Arith F] (env : Env) (tx : Tx F) (records : List DeletedRecord) :
    ∀ s ∈ (PerformDeletion.body env tx records).2.1.executed,
      s ∈ tx.executed ∨ (∃ t b, s = Stmt.deleteIn t b) ∨
        ∃ q d, s = Stmt.updateQuantity q d ∧ Arith.le q Arith.eps = false := by
  intro s
  rcases hacc : PerformDeletion.accumulate tx (GoMap.empty Arith.zero) (GoMap.empty []) records
    with ⟨e, tx1, dq, jm⟩
  have htx := (accumulate_tx records tx (GoMap.empty Arith.zero) (GoMap.empty [])).2.1
  rw [hacc] at htx
  dsimp only at htx
  unfold PerformDeletion.body
  rw [hacc]
  cases e with
  | some err =>
    dsimp only
    rw [htx]
    exact Or.inl
  | none =>
    dsimp only
    rw [deleteByIDs_guarded]
    have h1 := deleteByIDs_executed tx1 .journal
      ((env.journalOrder.iter jm.keys).map jm.val).flatten
    rcases hdel1 : deleteByIDs tx1 .journal
        ((env.journalOrder.iter jm.keys).map jm.val).flatten with ⟨e1, tx2⟩
    rw [hdel1] at h1
    dsimp only at h1
    have h1' : ∀ s ∈ tx2.executed, s ∈ tx.executed ∨ ∃ t b, s = Stmt.deleteIn t b := by
      intro s hs
      rcases h1 s hs with h | ⟨b, hb⟩
      · exact Or.inl (htx ▸ h)
      · exact Or.inr ⟨_, b, hb⟩
    cases e1 with
    | some err =>
      dsimp only
      intro hs
      rcases h1' s hs with h | h
      · exact Or.inl h
      · exact Or.inr (Or.inl h)
    | none =>
      dsimp only
      have h2 := reconcile_executed dq (env.detailOrder.iter dq.keys) tx2 [] 0
      rcases hrec : PerformDeletion.reconcile dq tx2 [] 0 (env.detailOrder.iter dq.keys)
        with ⟨e2, tx3, dd, du⟩
      rw [hrec] at h2
      dsimp only at h2
      have h2' : ∀ s ∈ tx3.executed, s ∈ tx.executed ∨ (∃ t b, s = Stmt.deleteIn t b) ∨
          ∃ q d, s = Stmt.updateQuantity q d ∧ Arith.le q Arith.eps = false := by
        intro s hs
        rcases h2 s hs with h | h
        · rcases h1' s h with h | h
          · exact Or.inl h
          · exact Or.inr (Or.inl h)
        · exact Or.inr (Or.inr h)
      cases e2 with
      | some err =>
        dsimp only
        exact h2' s
      | none =>
        dsimp only
        rw [deleteByIDs_guarded]
        have h3 := deleteByIDs_executed tx3 .form_detail dd
        rcases hdel2 : deleteByIDs tx3 .form_detail dd with ⟨e3, tx4⟩
        rw [hdel2] at h3
        dsimp only at h3
        have h3' : ∀ s ∈ tx4.executed, s ∈ tx.executed ∨ (∃ t b, s = Stmt.deleteIn t b) ∨
            ∃ q d, s = Stmt.updateQuantity q d ∧ Arith.le q Arith.eps = false := by
          intro s hs
          rcases h3 s hs with h | ⟨b, hb⟩
          · exact h2' s h
          · exact Or.inr (Or.inl ⟨_, b, hb⟩)
        cases e3 with
        | some err => exact h3' s
        | none => exact h3' s

theorem PerformDeletion_executed [Arith F] (env : Env) (db : DB F) (records : List DeletedRecord) :
    ∀ s ∈ (PerformDeletion env db records).executed,
      (∃ t b, s = Stmt.deleteIn t b) ∨ ∃ q d, s = Stmt.updateQuantity q d ∧ Arith.le q Arith.eps = false := by
  intro s
  unfold PerformDeletion
  split
  · simp
  · unfold Begin
    cases hf : env.faults 0 with
    | true => simp
    | false =>
      simp only [Bool.false_eq_true, if_false]
      have hb := body_executed env ⟨db, env.faults, 1, [], db⟩ records s
      rcases hbody : PerformDeletion.body env ⟨db, env.faults, 1, [], db⟩ records with ⟨e, tx, plan⟩
      rw [hbody] at hb
      simp only [List.not_mem_nil, false_or] at hb
      cases e with
      | some err => exact hb
      | none =>
        dsimp only
        unfold Tx.Commit
        split <;> exact hb

/-! ## Rollback: the committed tables are out of reach of the transaction -/

theorem Exec_committed (tx : Tx F) (s : Stmt F) : (tx.Exec s).2.committed = tx.committed := by
  unfold Tx.Exec
  split <;> rfl

theorem QueryJournalRow_committed (tx : Tx F) (id : Int) :
    (tx.QueryJournalRow id).2.committed = tx.committed := by
  unfold Tx.QueryJournalRow
  split
  · rfl
  · split <;> rfl

theorem QueryDetailRow_committed (tx : Tx F) (id : Int) :
    (tx.QueryDetailRow id).2.committed = tx.committed := by
  unfold Tx.QueryDetailRow
  split
  · rfl
  · split <;> rfl

theorem loop_committed (t : Table) (ids : List Int) :
    ∀ (m i : Nat) (tx : Tx F), ids.length - i = m →
      (deleteByIDs.loop t ids i tx).2.committed = tx.committed := by
  intro m
  induction m using Nat.strong_induction_on with
  | _ m ih =>
    intro i tx hm
    by_cases h : i < ids.length
    · rw [loop_of_lt t ids i tx h]
      have hx := Exec_committed tx (.deleteIn t ((ids.drop i).take batchSize))
      rcases hexec : tx.Exec (.deleteIn t ((ids.drop i).take batchSize)) with ⟨e, tx1⟩
      rw [hexec] at hx
      cases e with
      | some err => exact hx
      | none =>
        dsimp only at hx ⊢
        rw [ih (ids.length - (i + batchSize)) (by simp only [batchSize]; omega) (i + batchSize)
          tx1 rfl]
        exact hx
    · rw [loop_of_ge t ids i tx (by omega)]

theorem deleteByIDs_committed (tx : Tx F) (t : Table) (ids : List Int) :
    (deleteByIDs tx t ids).2.committed = tx.committed := by
  rw [deleteByIDs_eq_loop]
  exact loop_committed t ids ids.length 0 tx rfl

theorem accumulate_committed [Arith F] (records : List DeletedRecord) :
    ∀ (tx : Tx F) (dq : GoMap F) (jm : GoMap (List Int)),
      (PerformDeletion.accumulate tx dq jm records).2.1.committed = tx.committed := by
  induction records with
  | nil => intro tx dq jm; rfl
  | cons r rest ih =>
    intro tx dq jm
    rw [PerformDeletion.accumulate]
    have hq := QueryJournalRow_committed tx r.JournalID
    rcases hquery : tx.QueryJournalRow r.JournalID with ⟨res, tx1⟩
    rw [hquery] at hq
    cases res with
    | error err => exact hq
    | ok v =>
      obtain ⟨quantity, recType⟩ := v
      dsimp only at hq ⊢
      rw [ih]
      exact hq

theorem reconcile_committed [Arith F] (dq : GoMap F) :
    ∀ (ks : List Int) (tx : Tx F) (dd : List Int) (du : Nat),
      (PerformDeletion.reconcile dq tx dd du ks).2.1.committed = tx.committed := by
  intro ks
  induction ks with
  | nil => intro tx dd du; rfl
  | cons d ks ih =>
    intro tx dd du
    rw [PerformDeletion.reconcile]
    have hq := QueryDetailRow_committed tx d
    rcases hquery : tx.QueryDetailRow d with ⟨res, tx1⟩
    rw [hquery] at hq
    cases res with
    | error err => exact hq
    | ok currentQty =>
      dsimp only at hq ⊢
      split
      · rw [ih]; exact hq
      · have hx := Exec_committed tx1
          (.updateQuantity (Arith.sub currentQty (dq.val d)) d)
        rcases hexec : tx1.Exec (.updateQuantity (Arith.sub currentQty (dq.val d)) d)
          with ⟨e, tx2⟩
        rw [hexec] at hx
        cases e with
        | some err => exact hx.trans hq
        | none =>
          dsimp only at hx ⊢
          rw [ih]
          exact hx.trans hq

theorem body_committed [Arith F] (env : Env) (tx : Tx F) (records : List DeletedRecord) :
    (PerformDeletion.body env tx records).2.1.committed = tx.committed := by
  unfold PerformDeletion.body
  have h1 := accumulate_committed records tx (GoMap.empty Arith.zero) (GoMap.empty [])
  rcases hacc : PerformDeletion.accumulate tx (GoMap.empty Arith.zero) (GoMap.empty []) records
    with ⟨e, tx1, dq, jm⟩
  rw [hacc] at h1
  cases e with
  | some err => exact h1
  | none =>
    dsimp only at h1 ⊢
    rw [deleteByIDs_guarded]
    have h2 := deleteByIDs_committed tx1 .journal
      ((env.journalOrder.iter jm.keys).map jm.val).flatten
    rcases hdel1 : deleteByIDs tx1 .journal
        ((env.journalOrder.iter jm.keys).map jm.val).flatten with ⟨e1, tx2⟩
    rw [hdel1] at h2
    cases e1 with
    | some err => exact h2.trans h1
    | none =>
      dsimp only at h2 ⊢
      have h3 := reconcile_committed dq (env.detailOrder.iter dq.keys) tx2 [] 0
      rcases hrec : PerformDeletion.reconcile dq tx2 [] 0 (env.detailOrder.iter dq.keys)
        with ⟨e2, tx3, dd, du⟩
      rw [hrec] at h3
      cases e2 with
      | some err => exact h3.trans (h2.trans h1)
      | none =>
        dsimp only at h3 ⊢
        rw [deleteByIDs_guarded]
        have h4 := deleteByIDs_committed tx3 .form_detail dd
        rcases hdel2 : deleteByIDs tx3 .form_detail dd with ⟨e3, tx4⟩
        rw [hdel2] at h4
        cases e3 with
        | some err => exact h4.trans (h3.trans (h2.trans h1))
        | none => exact h4.trans (h3.trans (h2.trans h1))

theorem PerformDeletion_rollback [Arith F] (env : Env) (db : DB F) (records : List DeletedRecord)
    (h : (PerformDeletion env db records).err ≠ none) :
    (PerformDeletion env db records).db = db := by
  unfold PerformDeletion at h ⊢
  by_cases hlen : records.length = 0
  · rw [if_pos hlen]
  · rw [if_neg hlen] at h ⊢
    unfold Begin at h ⊢
    cases hf : env.faults 0 with
    | true => simp
    | false =>
      rw [hf] at h
      simp only [Bool.false_eq_true, if_false] at h ⊢
      have hc := body_committed env ⟨db, env.faults, 1, [], db⟩ records
      rcases hbody : PerformDeletion.body env ⟨db, env.faults, 1, [], db⟩ records with ⟨e, tx, plan⟩
      rw [hbody] at h hc
      cases e with
      | some err => exact hc
      | none =>
        dsimp only at h hc ⊢
        unfold Tx.Commit at h ⊢
        cases hc2 : tx.faults tx.ops with
        | true => simpa [Tx.Rollback] using hc
        | false => rw [hc2] at h; simp at h

theorem PerformDeletion_ok [Arith F] (env : Env) (db : DB F) (records : List DeletedRecord)
    (hne : records ≠ []) (h : (PerformDeletion env db records).err = none) :
    (PerformDeletion.body env ⟨db, env.faults, 1, [], db⟩ records).1 = none ∧
    (PerformDeletion env db records).db
      = (PerformDeletion.body env ⟨db, env.faults, 1, [], db⟩ records).2.1.db ∧
    (PerformDeletion env db records).executed
      = (PerformDeletion.body env ⟨db, env.faults, 1, [], db⟩ records).2.1.executed ∧
    (PerformDeletion env db records).plan
      = (PerformDeletion.body env ⟨db, env.faults, 1, [], db⟩ records).2.2 := by
  have hlen : ¬ records.length = 0 := fun h0 => hne (List.length_eq_zero.mp h0)
  unfold PerformDeletion at h ⊢
  rw [if_neg hlen] at h ⊢
  unfold Begin at h ⊢
  cases hf : env.faults 0 with
  | true => rw [hf] at h; simp at h
  | false =>
    rw [hf] at h
    simp only [Bool.false_eq_true, if_false] at h ⊢
    rcases hbody : PerformDeletion.body env ⟨db, env.faults, 1, [], db⟩ records with ⟨e, tx, plan⟩
    rw [hbody] at h
    cases e with
    | some err => simp at h
    | none =>
      dsimp only at h ⊢
      unfold Tx.Commit at h ⊢
      cases hc : tx.faults tx.ops with
      | true => rw [hc] at h; simp at h
      | false => simp

/-! ## PerformDeletion: the claims -/

theorem updatesOf_append (d : Int) (a b : List (Stmt F)) :
    updatesOf d (a ++ b) = updatesOf d a ++ updatesOf d b := by
  simp [updatesOf, List.filterMap_append]

theorem updatesOf_deletes (d : Int) (t : Table) (bs : List (List Int)) :
    updatesOf d (bs.map (Stmt.deleteIn t : List Int → Stmt F)) = [] := by
  induction bs with
  | nil => rfl
  | cons b bs ih =>
    simp only [updatesOf, List.map_cons, List.filterMap_cons] at ih ⊢
    exact ih

theorem updatesOf_updates (d : Int) (f : Int → F) (l : List Int) :
    updatesOf d (l.map (fun x => Stmt.updateQuantity (f x) x))
      = (l.filter (fun x => decide (x = d))).map f := by
  induction l with
  | nil => rfl
  | cons x l ih =>
    simp only [updatesOf, List.map_cons, List.filterMap_cons, List.filter_cons] at ih ⊢
    by_cases hx : x = d
    · simp only [hx, if_true, decide_True, List.map_cons, ih]
    · simp only [hx, if_false, decide_False, ih]
      rfl

theorem filter_eq_of_nodup (l : List Int) (d : Int) (hnd : l.Nodup) (hd : d ∈ l) :
    l.filter (fun x => decide (x = d)) = [d] := by
  induction l with
  | nil => simp at hd
  | cons x l ih =>
    have hx : x ∉ l := (List.nodup_cons.mp hnd).1
    rw [List.filter_cons]
    by_cases hxd : x = d
    · subst hxd
      rw [if_pos (by simp)]
      congr 1
      apply List.filter_eq_nil_iff.mpr
      intro y hy
      have : y ≠ x := fun h => hx (h ▸ hy)
      simpa using this
    · rw [if_neg (by simpa using hxd)]
      rcases List.mem_cons.mp hd with h | h
      · exact absurd h.symm hxd
      · exact ih (List.nodup_cons.mp hnd).2 h

theorem filter_eq_nil_of_not_mem (l : List Int) (d : Int) (hd : d ∉ l) :
    l.filter (fun x => decide (x = d)) = [] := by
  apply List.filter_eq_nil_iff.mpr
  intro y hy
  have : y ≠ d := fun h => hd (h ▸ hy)
  simpa using this

theorem PerformDeletion_plan_ok [Arith F] (env : Env) (db : DB F) (records : List DeletedRecord)
    (hne : records ≠ []) (hnil : (PerformDeletion env db records).err = none) :
    ∃ ks : List Int,
      ks.Nodup ∧ (∀ d, d ∈ ks ↔ d ∈ records.map (fun r => r.DetailID)) ∧
      (∀ r ∈ records, (db.journal.find? (fun j => decide (j.id = r.JournalID))).isSome) ∧
      (∀ d ∈ ks, (storedQuantity db d).isSome) ∧
      (PerformDeletion env db records).plan.detailsToDelete
        = ks.filter (fun d =>
            Arith.le (newQuantity db (accumulatedReduction db records) d) Arith.eps) ∧
      ∀ d, updatesOf d (PerformDeletion env db records).executed
        = (ks.filter (fun a => decide (a = d) &&
            !Arith.le (newQuantity db (accumulatedReduction db records) a) Arith.eps)).map
              (newQuantity db (accumulatedReduction db records)) := by
  obtain ⟨hb, _, hex, hplan⟩ := PerformDeletion_ok env db records hne hnil
  obtain ⟨ks, allJ, hnd, hks, _, hj, hst, bplan, bex, _, _⟩ :=
    body_ok env ⟨db, env.faults, 1, [], db⟩ records hb
  dsimp only at hj hst bplan bex
  refine ⟨ks, hnd, hks, hj, hst, ?_, ?_⟩
  · rw [hplan, bplan]
  · intro d
    rw [hex, bex, updatesOf_append, updatesOf_append, updatesOf_append, updatesOf_deletes,
      updatesOf_deletes, updatesOf_updates, List.filter_filter]
    simp [updatesOf]

theorem PerformDeletion_committed [Arith F] (env : Env) (db : DB F) (records : List DeletedRecord)
    (hnil : (PerformDeletion env db records).err = none) :
    (PerformDeletion env db records).db
      = { journal := db.journal.filter (fun j =>
            decide (j.id ∉ records.map (fun r => r.JournalID)))
          form_detail := (db.form_detail.map (fun d =>
            if d.id ∈ records.map (fun r => r.DetailID) ∧
                Arith.le (newQuantity db (accumulatedReduction db records) d.id) Arith.eps = false then
              { d with quantity := newQuantity db (accumulatedReduction db records) d.id }
            else d)).filter (fun d =>
              decide (¬ (d.id ∈ records.map (fun r => r.DetailID) ∧
                Arith.le (newQuantity db (accumulatedReduction db records) d.id) Arith.eps = true)))
          form_header := db.form_header } := by
  by_cases hne : records = []
  · subst hne
    have hdb : (PerformDeletion env db []).db = db := by simp [PerformDeletion]
    rw [hdb]
    cases db
    simp
  · obtain ⟨hb, hdb, _, _⟩ := PerformDeletion_ok env db records hne hnil
    obtain ⟨ks, allJ, _, hks, hall, _, _, _, _, bdb, _⟩ :=
      body_ok env ⟨db, env.faults, 1, [], db⟩ records hb
    dsimp only at bdb
    rw [hdb, bdb]
    congr 1
    · apply List.filter_congr
      intro j _
      exact decide_eq_decide.mpr (not_congr (hall j.id))
    · have hmap : ∀ r : FormDetailRow F,
          (if r.id ∈ ks ∧ Arith.le (newQuantity db (accumulatedReduction db records) r.id) Arith.eps = false
            then ({ r with quantity := newQuantity db (accumulatedReduction db records) r.id }
              : FormDetailRow F)
            else r)
          = (if r.id ∈ records.map (fun r => r.DetailID) ∧
                Arith.le (newQuantity db (accumulatedReduction db records) r.id) Arith.eps = false
            then { r with quantity := newQuantity db (accumulatedReduction db records) r.id }
            else r) := by
        intro r
        by_cases hr : r.id ∈ ks
        · rw [if_congr (and_congr_left' (iff_of_true hr ((hks r.id).mp hr))) rfl rfl]
        · have hr' : r.id ∉ records.map (fun r => r.DetailID) := fun h => hr ((hks r.id).mpr h)
          rw [if_neg (fun h => hr h.1), if_neg (fun h => hr' h.1)]
      simp only [hmap]
      apply List.filter_congr
      intro r _
      apply decide_eq_decide.mpr
      rw [List.mem_filter, hks]

theorem lineItem_deleted [Arith F] (env : Env) (db : DB F) (records : List DeletedRecord)
    (detailID : Int) (hnil : (PerformDeletion env db records).err = none)
    (hmem : detailID ∈ records.map (fun r => r.DetailID))
    (hle : Arith.le (newQuantity db (accumulatedReduction db records) detailID) Arith.eps = true) :
    (PerformDeletion env db records).plan.detailsToDelete.count detailID = 1 ∧
    updatesOf detailID (PerformDeletion env db records).executed = [] := by
  have hne : records ≠ [] := by
    rintro rfl
    simp at hmem
  obtain ⟨ks, hnd, hks, _, _, hdel, hupd⟩ := PerformDeletion_plan_ok env db records hne hnil
  have hdk : detailID ∈ ks := (hks detailID).mpr hmem
  rw [hdel, hupd]
  constructor
  · apply List.count_eq_one_of_mem (hnd.filter _)
    exact List.mem_filter.mpr ⟨hdk, hle⟩
  · have : ks.filter (fun a => decide (a = detailID) &&
        !Arith.le (newQuantity db (accumulatedReduction db records) a) Arith.eps) = [] := by
      apply List.filter_eq_nil_iff.mpr
      intro y _
      by_cases hy : y = detailID
      · subst hy
        rw [hle]
        simp
      · simp [hy]
    rw [this]
    rfl

theorem lineItem_updated [Arith F] (env : Env) (db : DB F) (records : List DeletedRecord)
    (detailID : Int) (hnil : (PerformDeletion env db records).err = none)
    (hmem : detailID ∈ records.map (fun r => r.DetailID))
    (hgt : Arith.le (newQuantity db (accumulatedReduction db records) detailID) Arith.eps = false) :
    detailID ∉ (PerformDeletion env db records).plan.detailsToDelete ∧
    updatesOf detailID (PerformDeletion env db records).executed
      = [newQuantity db (accumulatedReduction db records) detailID] := by
  have hne : records ≠ [] := by
    rintro rfl
    simp at hmem
  obtain ⟨ks, hnd, hks, _, _, hdel, hupd⟩ := PerformDeletion_plan_ok env db records hne hnil
  have hdk : detailID ∈ ks := (hks detailID).mpr hmem
  rw [hdel, hupd]
  constructor
  · intro hin
    have hle := (List.mem_filter.mp hin).2
    rw [hgt] at hle
    exact Bool.noConfusion hle
  · have : ks.filter (fun a => decide (a = detailID) &&
        !Arith.le (newQuantity db (accumulatedReduction db records) a) Arith.eps)
          = ks.filter (fun a => decide (a = detailID)) := by
      apply List.filter_congr
      intro y _
      by_cases hy : y = detailID
      · subst hy
        rw [hgt]
        simp
      · simp [hy]
    rw [this, filter_eq_of_nodup ks detailID hnd hdk]
    rfl

theorem exactArith_ordered : Arith.Ordered ℚ where
  le_trans := by
    intro a b c hab hbc
    have h1 : a ≤ b := of_decide_eq_true hab
    have h2 : b ≤ c := of_decide_eq_true hbc
    exact decide_eq_true (le_trans h1 h2)
  zero_le_eps := by decide!

/-- C4. `PerformDeletion` is all-or-nothing.  Whatever the store faults, the map
iteration orders and the arithmetic: if it returns an error (from `Begin`, a journal
lookup, a journal batch delete, a line-item read, a line-item update, a line-item
batch delete or `Commit`), the three tables are exactly as before the call, because
every statement of the pass went through the transaction and left the committed
tables alone; if it returns `nil`, then every journal entry named by a record is
gone, every line item of the records whose remainder passes the test `<= 0.001` is
gone, every other line item of the records holds its remainder, and nothing else has
changed. -/
theorem PerformDeletion_atomic [Arith F] (env : Env) (db : DB F) (records : List DeletedRecord) :
    ((PerformDeletion env db records).err ≠ none → (PerformDeletion env db records).db = db) ∧
    ((PerformDeletion env db records).err = none →
      (PerformDeletion env db records).db
        = { journal := db.journal.filter (fun j =>
              decide (j.id ∉ records.map (fun r => r.JournalID)))
            form_detail := (db.form_detail.map (fun d =>
              if d.id ∈ records.map (fun r => r.DetailID) ∧
                  Arith.le (newQuantity db (accumulatedReduction db records) d.id) Arith.eps
                    = false then
                { d with quantity := newQuantity db (accumulatedReduction db records) d.id }
              else d)).filter (fun d =>
                decide (¬ (d.id ∈ records.map (fun r => r.DetailID) ∧
                  Arith.le (newQuantity db (accumulatedReduction db records) d.id) Arith.eps
                    = true)))
            form_header := db.form_header }) := by
  constructor
  · intro herr
    exact PerformDeletion_rollback env db records herr
  · intro hnil
    exact PerformDeletion_committed env db records hnil

/-- C4 instantiated on the three-entry scenario: when `Commit` fails, the journal
`DELETE` and the line-item `UPDATE` have been executed inside the transaction and the
tables are nevertheless those before the call; without faults the pass returns `nil`
and the three journal entries are gone. -/
theorem PerformDeletion_atomic_witness :
    (PerformDeletion commitFaultEnv scenarioDB scenarioRecords).err
      = some (DBError.storeFailure 7) ∧
    (PerformDeletion commitFaultEnv scenarioDB scenarioRecords).executed
      = [Stmt.deleteIn .journal [1, 2, 3], Stmt.updateQuantity 10 100] ∧
    (PerformDeletion commitFaultEnv scenarioDB scenarioRecords).db = scenarioDB ∧
    (PerformDeletion quietEnv scenarioDB scenarioRecords).err = none ∧
    (PerformDeletion quietEnv scenarioDB scenarioRecords).db.journal = [] :=
  ⟨by decide!, by decide!,
   (PerformDeletion_atomic commitFaultEnv scenarioDB scenarioRecords).1 (by decide!),
   by decide!, by decide!⟩

/-- C8. `PerformDeletion` never writes a quantity at or below 0.001: whatever the
store faults and the database, every `UPDATE` it executes carries a quantity `q`
for which the test `q <= 0.001` is false; when `q` is comparable with 0.001 (it
always is, unless it is a NaN) and `<=` is transitive with `0.0 <= 0.001`, this
means `0.001 <= q`, `0.0 <= q` and not `q <= 0.0`: strictly above 0.001, hence
positive.  And when the pass returns `nil`, every line item of the records whose
remainder `currentQty - reduction` passes the test `<= 0.001` (a remainder at or
below `0.0` does, under the same laws) is on the delete list, receives no `UPDATE`
and is absent from the resulting `form_detail` table. -/
theorem PerformDeletion_no_negative_target [Arith F] (env : Env) (db : DB F)
    (records : List DeletedRecord) :
    (∀ q d, Stmt.updateQuantity q d ∈ (PerformDeletion env db records).executed →
      Arith.le q Arith.eps = false ∧
      (Arith.Ordered F → (Arith.le q Arith.eps = true ∨ Arith.le Arith.eps q = true) →
        Arith.le Arith.eps q = true ∧ Arith.le Arith.zero q = true ∧
          Arith.le q Arith.zero = false)) ∧
    ((PerformDeletion env db records).err = none →
      ∀ d ∈ records.map (fun r => r.DetailID),
        (Arith.le (newQuantity db (accumulatedReduction db records) d) Arith.eps = true ∨
          (Arith.Ordered F ∧
            Arith.le (newQuantity db (accumulatedReduction db records) d) Arith.zero = true)) →
          d ∈ (PerformDeletion env db records).plan.detailsToDelete ∧
          updatesOf d (PerformDeletion env db records).executed = [] ∧
          ∀ row ∈ (PerformDeletion env db records).db.form_detail, row.id ≠ d) := by
  constructor
  · intro q d hmem
    rcases PerformDeletion_executed env db records _ hmem with ⟨t, b, h⟩ | ⟨q', d', h, hq⟩
    · cases h
    · cases h
      refine ⟨hq, ?_⟩
      intro hord hcmp
      have heq : Arith.le Arith.eps q = true := by
        rcases hcmp with hc | hc
        · rw [hq] at hc; exact Bool.noConfusion hc
        · exact hc
      refine ⟨heq, hord.le_trans _ _ _ hord.zero_le_eps heq, ?_⟩
      cases hz : Arith.le q Arith.zero with
      | false => rfl
      | true =>
        have := hord.le_trans _ _ _ hz hord.zero_le_eps
        rw [hq] at this
        exact Bool.noConfusion this
  · intro hnil d hd hle
    have hle' : Arith.le (newQuantity db (accumulatedReduction db records) d) Arith.eps
        = true := by
      rcases hle with h | ⟨hord, h⟩
      · exact h
      · exact hord.le_trans _ _ _ h hord.zero_le_eps
    obtain ⟨hcount, hupd⟩ := lineItem_deleted env db records d hnil hd hle'
    refine ⟨List.count_pos_iff.mp (by omega), hupd, ?_⟩
    · intro row hrow hid
      rw [PerformDeletion_committed env db records hnil] at hrow
      have := (List.mem_filter.mp hrow).2
      simp only [decide_eq_true_eq] at this
      exact this ⟨hid ▸ hd, hid ▸ hle'⟩

/-- C8 instantiated on the purchase-and-sale state: the pass returns `nil`; line
item 100 has remainder `5 - 5 = 0`, it is on the delete list, gets no `UPDATE` and
is gone from `form_detail`; the one `UPDATE` of the pass writes 10, which is above
0.001 and above zero. -/
theorem PerformDeletion_no_negative_target_witness :
    (PerformDeletion quietEnv saleDB saleRecords).err = none ∧
    newQuantity saleDB (accumulatedReduction saleDB saleRecords) 100 = 0 ∧
    ((100 : Int) ∈ (PerformDeletion quietEnv saleDB saleRecords).plan.detailsToDelete ∧
      updatesOf 100 (PerformDeletion quietEnv saleDB saleRecords).executed = [] ∧
      ∀ row ∈ (PerformDeletion quietEnv saleDB saleRecords).db.form_detail, row.id ≠ 100) ∧
    Stmt.updateQuantity (10 : ℚ) 200
      ∈ (PerformDeletion quietEnv saleDB saleRecords).executed ∧
    (Arith.le Arith.eps (10 : ℚ) = true ∧ Arith.le Arith.zero (10 : ℚ) = true ∧
      Arith.le (10 : ℚ) Arith.zero = false) :=
  ⟨by decide!, by decide!,
   (PerformDeletion_no_negative_target quietEnv saleDB saleRecords).2 (by decide!) 100
     (by decide!) (Or.inl (by decide!)),
   by decide!,
   ((PerformDeletion_no_negative_target quietEnv saleDB saleRecords).1 10 200
     (by decide!)).2 exactArith_ordered (Or.inr (by decide!))⟩

/-! ## The three-entry scenario, the sale line and the shared reference -/

/-- C5 fails on the code: on the three entries `(+1,10), (-1,6), (-1,4)` that all
reference line item 100 (stored quantity 10) the pass returns `nil`, the signed
contributions cancel, so the accumulated reduction is 0 and not 10, and line item
100 is not marked for deletion: it is updated to its unchanged quantity 10 and is
still in `form_detail` afterwards, while all three of its journal entries are gone.
The program's messages call the accumulated value `reduced_by` and report the line
item as deleted. -/
theorem scenario_line_item_not_deleted :
    (PerformDeletion quietEnv scenarioDB scenarioRecords).err = none ∧
    accumulatedReduction scenarioDB scenarioRecords 100 = 0 ∧
    accumulatedReduction scenarioDB scenarioRecords 100 ≠ 10 ∧
    ¬ ((100 : Int)
      ∈ (PerformDeletion quietEnv scenarioDB scenarioRecords).plan.detailsToDelete) ∧
    (PerformDeletion quietEnv scenarioDB scenarioRecords).executed
      = [Stmt.deleteIn .journal [1, 2, 3], Stmt.updateQuantity 10 100] ∧
    (PerformDeletion quietEnv scenarioDB scenarioRecords).db.journal = [] ∧
    (PerformDeletion quietEnv scenarioDB scenarioRecords).db.form_detail
      = [{ id := 100, headerFk := 50, quantity := 10 }] := by
  decide!

/-- C6 on a purchase of 5 and the sale of those 5: the live run deletes both journal
entries, deletes the purchase line 100 and writes 10 to the sale line 200, whose
stored quantity before the call was 5. -/
theorem sale_line_quantity_raised :
    storedQuantity saleDB 200 = some 5 ∧
    (main { CutoffDate := 10, DryRun := false }
        { deletion := quietEnv, orphanFaults := fun _ => false } saleDB).recordsToDelete
      = [{ JournalID := 1, DetailID := 100, HeaderID := 50, TxnDate := 5 },
         { JournalID := 2, DetailID := 200, HeaderID := 60, TxnDate := 5 }] ∧
    (PerformDeletion quietEnv saleDB
        (GetRecordsToDelete saleDB (FindZeroBalanceItemsByDate saleDB 10) 10)).executed
      = [Stmt.deleteIn .journal [1, 2], Stmt.updateQuantity 10 200,
         Stmt.deleteIn .form_detail [100]] ∧
    (main { CutoffDate := 10, DryRun := false }
        { deletion := quietEnv, orphanFaults := fun _ => false } saleDB).db.form_detail
      = [{ id := 200, headerFk := 60, quantity := 10 }] := by
  decide!

/-- C3 on two groups that share `referenceFk = 7`: `(7, 1, 1, 1)` has net balance
zero and is the only group `FindZeroBalanceItemsByDate` returns, `(7, 2, 1, 1)` has
net balance 8; `GetRecordsToDelete` for the zero-balance group alone returns the
entry 3 of the other group as well. -/
theorem shared_reference_entry_selected :
    FindZeroBalanceItemsByDate sharedReferenceDB 10 = [zeroGroup] ∧
    GetRecordsToDelete sharedReferenceDB [zeroGroup] 10
      = [{ JournalID := 1, DetailID := 100, HeaderID := 50, TxnDate := 5 },
         { JournalID := 2, DetailID := 200, HeaderID := 60, TxnDate := 5 },
         { JournalID := 3, DetailID := 300, HeaderID := 50, TxnDate := 5 }] ∧
    (∃ j ∈ sharedReferenceDB.journal, j.id = 3 ∧
      groupKey j ≠ (some zeroGroup.ReferenceFk, zeroGroup.ItemFk, zeroGroup.LocationFk,
        zeroGroup.ShopFk)) := by
  refine ⟨by decide!, by decide!, ?_⟩
  exact ⟨{ ledgerEntry 3 1 8 300 with itemFk := 2 }, by decide!, rfl, by decide⟩

/-! ## Orphaned headers -/

theorem leftJoin_unmatched (db : DB F) :
    (leftJoinHeaderDetail db).filter (fun r => r.2.isNone)
      = (db.form_header.filter (fun h => !ownsLineItem db h)).map (fun h => (h, none)) := by
  unfold leftJoinHeaderDetail
  induction db.form_header with
  | nil => rfl
  | cons fh rest ih =>
    rw [List.flatMap_cons, List.filter_append, ih, List.filter_cons]
    cases hm : db.form_detail.filter (fun fd => decide (fh.id = fd.headerFk)) with
    | nil =>
      have hown : ownsLineItem db fh = false := by
        unfold ownsLineItem
        rw [List.any_eq_false]
        intro fd hfd
        have := List.filter_eq_nil_iff.mp hm fd hfd
        simp only [decide_eq_true_eq] at this ⊢
        exact fun h => this h.symm
      simp [hown]
    | cons fd fds =>
      have hown : ownsLineItem db fh = true := by
        unfold ownsLineItem
        rw [List.any_eq_true]
        have hmem : fd ∈ db.form_detail.filter (fun fd => decide (fh.id = fd.headerFk)) := by
          rw [hm]; exact List.mem_cons_self _ _
        refine ⟨fd, List.mem_of_mem_filter hmem, ?_⟩
        have := (List.mem_filter.mp hmem).2
        simp only [decide_eq_true_eq] at this ⊢
        exact this.symm
      have hnone : ((fd :: fds).map (fun x => (fh, some x))).filter
          (fun r : FormHeaderRow × Option (FormDetailRow F) => r.2.isNone) = [] := by
        apply List.filter_eq_nil_iff.mpr
        intro r hr
        obtain ⟨x, _, rfl⟩ := List.mem_map.mp hr
        simp
      simp only [hown, Bool.not_true, Bool.false_eq_true, if_false]
      rw [hnone, List.nil_append]

theorem FindOrphanedHeaders_perm (db : DB F) :
    (FindOrphanedHeaders db).Perm
      ((db.form_header.filter (fun h => !ownsLineItem db h)).map asOrphanedHeader) := by
  have h1 := (List.perm_insertionSort (fun a b : FormHeaderRow × Option (FormDetailRow F) =>
    a.1.id ≤ b.1.id) ((leftJoinHeaderDetail db).filter (fun r => r.2.isNone))).map
      (fun r : FormHeaderRow × Option (FormDetailRow F) => asOrphanedHeader r.1)
  have h2 : ((leftJoinHeaderDetail db).filter (fun r => r.2.isNone)).map
      (fun r : FormHeaderRow × Option (FormDetailRow F) => asOrphanedHeader r.1)
        = (db.form_header.filter (fun h => !ownsLineItem db h)).map asOrphanedHeader := by
    rw [leftJoin_unmatched, List.map_map]
    rfl
  rw [h2] at h1
  exact h1

theorem FindOrphanedHeaders_sorted (db : DB F) :
    ((FindOrphanedHeaders db).map (fun o => o.ID)).Sorted (fun a b => a ≤ b) := by
  unfold FindOrphanedHeaders
  haveI : IsTotal (FormHeaderRow × Option (FormDetailRow F)) (fun a b => a.1.id ≤ b.1.id) :=
    ⟨fun a b => le_total a.1.id b.1.id⟩
  haveI : IsTrans (FormHeaderRow × Option (FormDetailRow F)) (fun a b => a.1.id ≤ b.1.id) :=
    ⟨fun a b c hab hbc => le_trans hab hbc⟩
  have hs := List.sorted_insertionSort (fun a b : FormHeaderRow × Option (FormDetailRow F) =>
    a.1.id ≤ b.1.id) ((leftJoinHeaderDetail db).filter (fun r => r.2.isNone))
  rw [List.map_map]
  exact List.pairwise_map.mpr hs

theorem DeleteOrphanedHeaders_db (faults : Nat → Bool) (db : DB F) (headers : List OrphanedHeader) :
    (DeleteOrphanedHeaders faults db headers).db = db ∨
    (DeleteOrphanedHeaders faults db headers).db
      = applyStmt (.deleteIn .form_header (headers.map (fun header => header.ID))) db := by
  unfold DeleteOrphanedHeaders
  by_cases hlen : headers.length = 0
  · rw [if_pos hlen]
    exact Or.inl rfl
  · rw [if_neg hlen]
    unfold Begin
    cases hf : faults 0 with
    | true =>
      left
      simp
    | false =>
      simp only [Bool.false_eq_true, if_false]
      have hok := deleteByIDs_ok ⟨db, faults, 1, [], db⟩ .form_header
        (headers.map (fun header => header.ID))
      have hcm := deleteByIDs_committed ⟨db, faults, 1, [], db⟩ .form_header
        (headers.map (fun header => header.ID))
      rcases hdel : deleteByIDs ⟨db, faults, 1, [], db⟩ .form_header
        (headers.map (fun header => header.ID)) with ⟨e, tx⟩
      rw [hdel] at hok hcm ⊢
      cases e with
      | some err =>
        left
        exact hcm
      | none =>
        dsimp only at hok hcm ⊢
        unfold Tx.Commit
        cases hc : tx.faults tx.ops with
        | true =>
          left
          exact hcm
        | false =>
          right
          simp only [Bool.false_eq_true, if_false]
          rw [hok rfl]

/-- C9. `FindOrphanedHeaders` returns exactly the headers no line item points to:
its result is a rearrangement (each header once) of the `form_header` rows that own no
line item, in ascending id order.  Consequently the orphan pass, whatever the store
faults, leaves in `form_header` every header that owns one or more line items. -/
theorem FindOrphanedHeaders_exact (db : DB F) :
    (FindOrphanedHeaders db).Perm
      ((db.form_header.filter (fun h => !ownsLineItem db h)).map asOrphanedHeader) ∧
    ((FindOrphanedHeaders db).map (fun o => o.ID)).Sorted (fun a b => a ≤ b) ∧
    (∀ h ∈ db.form_header,
      (h ∈ (db.form_header.filter (fun h => !ownsLineItem db h))
        ↔ ¬ ∃ fd ∈ db.form_detail, fd.headerFk = h.id)) ∧
    ∀ (faults : Nat → Bool) (h : FormHeaderRow), h ∈ db.form_header →
      (∃ fd ∈ db.form_detail, fd.headerFk = h.id) →
      h ∈ (DeleteOrphanedHeaders faults db (FindOrphanedHeaders db)).db.form_header := by
  refine ⟨FindOrphanedHeaders_perm db, FindOrphanedHeaders_sorted db, ?_, ?_⟩
  · intro h hh
    simp only [List.mem_filter, hh, true_and, ownsLineItem, Bool.not_eq_true',
      List.any_eq_false, decide_eq_true_eq]
    constructor
    · rintro hno ⟨fd, hfd, heq⟩
      exact hno fd hfd heq
    · intro hno fd hfd heq
      exact hno ⟨fd, hfd, heq⟩
  · intro faults h hh ⟨fd, hfd, heq⟩
    rcases DeleteOrphanedHeaders_db faults db (FindOrphanedHeaders db) with hdb | hdb
    · rw [hdb]; exact hh
    · rw [hdb]
      simp only [applyStmt]
      apply List.mem_filter.mpr
      refine ⟨hh, ?_⟩
      simp only [decide_eq_true_eq]
      intro hin
      obtain ⟨o, ho, hid⟩ := List.mem_map.mp hin
      have ho' := (FindOrphanedHeaders_perm db).mem_iff.mp ho
      obtain ⟨h', hh', rfl⟩ := List.mem_map.mp ho'
      have hown := (List.mem_filter.mp hh').2
      simp only [ownsLineItem, Bool.not_eq_true', List.any_eq_false, decide_eq_true_eq] at hown
      have hid' : h'.id = h.id := hid
      exact hown fd hfd (heq.trans hid'.symm)

/-! ## Dry run and live run -/

theorem step2_fields (config : Config) (env : RunEnv) (db : DB F) (zs : List (ItemBalance F))
    (rs : List DeletedRecord) (plan : Option Plan) :
    (main.step2 config env db zs rs plan).zeroBalanceItems = zs ∧
    (main.step2 config env db zs rs plan).recordsToDelete = rs ∧
    (main.step2 config env db zs rs plan).plan = plan ∧
    (main.step2 config env db zs rs plan).orphanedHeaders = some (FindOrphanedHeaders db) := by
  unfold main.step2
  dsimp only
  split
  · split <;> exact ⟨rfl, rfl, rfl, rfl⟩
  · exact ⟨rfl, rfl, rfl, rfl⟩

theorem step2_dry (env : RunEnv) (db : DB F) (cutoff : Date) (zs : List (ItemBalance F))
    (rs : List DeletedRecord) (plan : Option Plan) :
    (main.step2 { CutoffDate := cutoff, DryRun := true } env db zs rs plan).db = db ∧
    (main.step2 { CutoffDate := cutoff, DryRun := true } env db zs rs plan).fatal = none := by
  unfold main.step2
  dsimp only
  split
  · exact ⟨rfl, rfl⟩
  · exact ⟨rfl, rfl⟩

theorem orphans_after_deletion [Arith F] (env : Env) (db : DB F) (records : List DeletedRecord)
    (hnil : (PerformDeletion env db records).err = none) :
    ∀ o ∈ FindOrphanedHeaders db, o ∈ FindOrphanedHeaders (PerformDeletion env db records).db := by
  intro o ho
  have ho' := (FindOrphanedHeaders_perm db).mem_iff.mp ho
  obtain ⟨h, hh, rfl⟩ := List.mem_map.mp ho'
  apply (FindOrphanedHeaders_perm _).mem_iff.mpr
  apply List.mem_map.mpr
  refine ⟨h, ?_, rfl⟩
  have hdb := PerformDeletion_committed env db records hnil
  obtain ⟨hmem, hown⟩ := List.mem_filter.mp hh
  apply List.mem_filter.mpr
  constructor
  · rw [hdb]; exact hmem
  · simp only [ownsLineItem, Bool.not_eq_true', List.any_eq_false, decide_eq_true_eq] at hown ⊢
    intro fd' hfd'
    rw [hdb] at hfd'
    obtain ⟨fd, hfd, rfl⟩ := List.mem_map.mp (List.mem_of_mem_filter hfd')
    have := hown fd hfd
    split <;> exact this

/-- C10, as stated, fails on the code: on a purchase of 5 and the sale of those 5 the
dry run reports no orphaned header while the live run, which looks for orphans after
it has deleted line item 100, selects header 50; and the dry run computes no line-item
plan at all. -/
theorem dry_run_differs_from_live_run :
    (main { CutoffDate := 10, DryRun := true }
        { deletion := quietEnv, orphanFaults := fun _ => false } saleDB).orphanedHeaders
      = some [] ∧
    (main { CutoffDate := 10, DryRun := false }
        { deletion := quietEnv, orphanFaults := fun _ => false } saleDB).orphanedHeaders
      = some [{ ID := 50, HeaderNo := "P-50", FormDate := 1, PartnerFk := 1, FormType := 1 }] ∧
    (main { CutoffDate := 10, DryRun := true }
        { deletion := quietEnv, orphanFaults := fun _ => false } saleDB).plan = none ∧
    (main { CutoffDate := 10, DryRun := false }
        { deletion := quietEnv, orphanFaults := fun _ => false } saleDB).plan
      = some { allJournalIDs := [1, 2], detailsToDelete := [100], detailsUpdated := 1 } := by
  decide!

/-- C10 (amended). For every database state, cutoff date and environment, a dry run
and a live run select the same zero-balance groups and the same PendingDeletion list.
The dry run computes no line-item plan, changes no table and never fails; its orphaned
headers are those of the initial state.  The live run looks for orphaned headers after
its zero-balance mutations: whenever it reaches that step, it selects every header the
dry run selects. -/
theorem dry_run_selects_same_records [Arith F] (env : RunEnv) (db : DB F) (cutoff : Date) :
    (main { CutoffDate := cutoff, DryRun := true } env db).zeroBalanceItems
      = (main { CutoffDate := cutoff, DryRun := false } env db).zeroBalanceItems ∧
    (main { CutoffDate := cutoff, DryRun := true } env db).recordsToDelete
      = (main { CutoffDate := cutoff, DryRun := false } env db).recordsToDelete ∧
    (main { CutoffDate := cutoff, DryRun := true } env db).plan = none ∧
    (main { CutoffDate := cutoff, DryRun := true } env db).db = db ∧
    (main { CutoffDate := cutoff, DryRun := true } env db).fatal = none ∧
    (main { CutoffDate := cutoff, DryRun := true } env db).orphanedHeaders
      = some (FindOrphanedHeaders db) ∧
    ∀ hs, (main { CutoffDate := cutoff, DryRun := false } env db).orphanedHeaders = some hs →
      ∀ o ∈ FindOrphanedHeaders db, o ∈ hs := by
  unfold main
  dsimp only
  by_cases hz : (FindZeroBalanceItemsByDate db cutoff).length > 0
  · simp only [hz, if_true, Bool.false_eq_true, if_false]
    have hd := step2_fields { CutoffDate := cutoff, DryRun := true } env db
      (FindZeroBalanceItemsByDate db cutoff)
      (GetRecordsToDelete db (FindZeroBalanceItemsByDate db cutoff) cutoff) none
    have hd' := step2_dry env db cutoff (FindZeroBalanceItemsByDate db cutoff)
      (GetRecordsToDelete db (FindZeroBalanceItemsByDate db cutoff) cutoff) none
    cases herr : (PerformDeletion env.deletion db
        (GetRecordsToDelete db (FindZeroBalanceItemsByDate db cutoff) cutoff)).err with
    | some err =>
      dsimp only
      refine ⟨hd.1, hd.2.1, hd.2.2.1, hd'.1, hd'.2, hd.2.2.2, ?_⟩
      intro hs h
      cases h
    | none =>
      dsimp only
      have hl := step2_fields { CutoffDate := cutoff, DryRun := false } env
        (PerformDeletion env.deletion db
          (GetRecordsToDelete db (FindZeroBalanceItemsByDate db cutoff) cutoff)).db
        (FindZeroBalanceItemsByDate db cutoff)
        (GetRecordsToDelete db (FindZeroBalanceItemsByDate db cutoff) cutoff)
        (some (PerformDeletion env.deletion db
          (GetRecordsToDelete db (FindZeroBalanceItemsByDate db cutoff) cutoff)).plan)
      refine ⟨hd.1.trans hl.1.symm, hd.2.1.trans hl.2.1.symm, hd.2.2.1, hd'.1, hd'.2,
        hd.2.2.2, ?_⟩
      intro hs h o ho
      rw [hl.2.2.2] at h
      cases h
      exact orphans_after_deletion env.deletion db _ herr o ho
  · simp only [hz, if_false]
    have hd := step2_fields { CutoffDate := cutoff, DryRun := true } env db
      (FindZeroBalanceItemsByDate db cutoff) [] none
    have hd' := step2_dry env db cutoff (FindZeroBalanceItemsByDate db cutoff) [] none
    have hl := step2_fields { CutoffDate := cutoff, DryRun := false } env db
      (FindZeroBalanceItemsByDate db cutoff) [] none
    refine ⟨hd.1.trans hl.1.symm, hd.2.1.trans hl.2.1.symm, hd.2.2.1, hd'.1, hd'.2,
      hd.2.2.2, ?_⟩
    intro hs h o ho
    rw [hl.2.2.2] at h
    cases h
    exact ho

/-! ## The zero-balance pass run twice -/

theorem mem_joinJournalDetailHeader (db : DB F) (r : JournalRow F × FormDetailRow F × FormHeaderRow) :
    r ∈ joinJournalDetailHeader db ↔
      r.1 ∈ db.journal ∧ r.2.1 ∈ db.form_detail ∧ r.1.detailFk = r.2.1.id ∧
        r.2.2 ∈ db.form_header ∧ r.2.1.headerFk = r.2.2.id := by
  obtain ⟨j, fd, fh⟩ := r
  simp only [joinJournalDetailHeader, List.mem_flatMap, List.mem_filter, List.mem_map,
    decide_eq_true_eq, Prod.mk.injEq]
  constructor
  · rintro ⟨j', hj', fd', ⟨hfd', hjd⟩, fh', ⟨hfh', hdh⟩, rfl, rfl, rfl⟩
    exact ⟨hj', hfd', hjd, hfh', hdh⟩
  · rintro ⟨hj, hfd, hjd, hfh, hdh⟩
    exact ⟨j, hj, fd, ⟨hfd, hjd⟩, fh, ⟨hfh, hdh⟩, rfl, rfl, rfl⟩

theorem mem_GetRecordsToDelete_ids (db : DB F) (items : List (ItemBalance F)) (cutoffDate : Date)
    (hne : items ≠ []) (x : Int) :
    x ∈ (GetRecordsToDelete db items cutoffDate).map (fun r => r.JournalID) ↔
      ∃ j ∈ db.journal, j.id = x ∧
        recordsWhere (items.map (fun item => item.ReferenceFk)) cutoffDate j = true ∧
        joinsToHeader db j := by
  have hlen : ¬ items.length = 0 := fun h => hne (List.length_eq_zero.mp h)
  unfold GetRecordsToDelete
  rw [if_neg hlen]
  simp only [List.map_map, List.mem_map, Function.comp,
    (List.perm_insertionSort recordsOrder _).mem_iff, List.mem_filter,
    mem_joinJournalDetailHeader, joinsToHeader]
  constructor
  · rintro ⟨⟨j, fd, fh⟩, ⟨⟨hj, hfd, hjd, hfh, hdh⟩, hw⟩, rfl⟩
    exact ⟨j, hj, rfl, hw, fd, hfd, hjd, fh, hfh, hdh⟩
  · rintro ⟨j, hj, rfl, hw, fd, hfd, hjd, fh, hfh, hdh⟩
    exact ⟨⟨j, fd, fh⟩, ⟨⟨hj, hfd, hjd, hfh, hdh⟩, hw⟩, rfl⟩

theorem mem_FindZeroBalanceItemsByDate [Arith F] (db : DB F) (cutoffDate : Date) (b : ItemBalance F) :
    b ∈ FindZeroBalanceItemsByDate db cutoffDate ↔
      ∃ g ∈ groupRows (db.journal.filter (zeroBalanceWhere cutoffDate)),
        Arith.sqlIsZero (netBalance g.2) = true ∧ scanItemBalance g = b := by
  unfold FindZeroBalanceItemsByDate
  dsimp only
  rw [(List.perm_insertionSort _ _).mem_iff]
  simp only [List.mem_map, List.mem_filter]
  constructor
  · rintro ⟨g, ⟨hg, hnet⟩, rfl⟩
    exact ⟨g, hg, hnet, rfl⟩
  · rintro ⟨g, hg, hnet, rfl⟩
    exact ⟨g, ⟨hg, hnet⟩, rfl⟩

theorem mem_groupRows (rows : List (JournalRow F)) (g : GroupKey × List (JournalRow F)) :
    g ∈ groupRows rows ↔
      (∃ j ∈ rows, groupKey j = g.1) ∧ g.2 = rows.filter (fun j => decide (groupKey j = g.1)) := by
  obtain ⟨k, l⟩ := g
  simp only [groupRows, List.mem_map, List.mem_dedup, Prod.mk.injEq]
  constructor
  · rintro ⟨k', ⟨j, hj, rfl⟩, rfl, rfl⟩
    exact ⟨⟨j, hj, rfl⟩, rfl⟩
  · rintro ⟨⟨j, hj, rfl⟩, hl⟩
    exact ⟨groupKey j, ⟨j, hj, rfl⟩, rfl, hl.symm⟩

theorem recordsWhere_of_zeroBalanceWhere (refs : List Int) (cutoffDate : Date) (j : JournalRow F)
    (hz : zeroBalanceWhere cutoffDate j = true) :
    recordsWhere refs cutoffDate j = true ↔ ∃ r ∈ refs, j.referenceFk = some r := by
  simp only [zeroBalanceWhere, Bool.and_eq_true, decide_eq_true_eq] at hz
  obtain ⟨⟨hacc, hdate⟩, href⟩ := hz
  unfold recordsWhere
  cases hr : j.referenceFk with
  | none => rw [hr] at href; simp at href
  | some r => simp [hacc, hdate]

/-- C7, as stated, fails on the code: the two entries of `danglingDB` form a
zero-balance group, but they join to no line item, so `GetRecordsToDelete` returns no
record, `PerformDeletion` returns `nil` without deleting anything, and a second
`FindZeroBalanceItemsByDate` returns the same group again. -/
theorem second_pass_finds_dangling_group :
    GetRecordsToDelete danglingDB (FindZeroBalanceItemsByDate danglingDB 10) 10 = [] ∧
    (PerformDeletion quietEnv danglingDB
      (GetRecordsToDelete danglingDB (FindZeroBalanceItemsByDate danglingDB 10) 10)).err = none ∧
    FindZeroBalanceItemsByDate (PerformDeletion quietEnv danglingDB
      (GetRecordsToDelete danglingDB (FindZeroBalanceItemsByDate danglingDB 10) 10)).db 10
      = [zeroGroup] := by
  decide!

/-- C7 (amended). In every database state in which journal ids are unique and every
account-class-2 entry dated on or before the cutoff whose `referenceFk` is that of a
zero-balance group joins through an existing line item to an existing header: after
`FindZeroBalanceItemsByDate`, `GetRecordsToDelete` and a `PerformDeletion` that
returns `nil`, a second `FindZeroBalanceItemsByDate` with the same cutoff returns no
groups. -/
theorem second_pass_finds_no_groups [Arith F] (env : Env) (db : DB F) (cutoffDate : Date)
    (hkey : (db.journal.map (fun j => j.id)).Nodup)
    (hjoin : ∀ j ∈ db.journal,
      recordsWhere ((FindZeroBalanceItemsByDate db cutoffDate).map
        (fun item => item.ReferenceFk)) cutoffDate j = true → joinsToHeader db j)
    (hnil : (PerformDeletion env db (GetRecordsToDelete db
      (FindZeroBalanceItemsByDate db cutoffDate) cutoffDate)).err = none) :
    FindZeroBalanceItemsByDate (PerformDeletion env db (GetRecordsToDelete db
      (FindZeroBalanceItemsByDate db cutoffDate) cutoffDate)).db cutoffDate = [] := by
  by_cases hZ : FindZeroBalanceItemsByDate db cutoffDate = []
  · have hR : GetRecordsToDelete db (FindZeroBalanceItemsByDate db cutoffDate) cutoffDate = [] := by
      rw [hZ]; rfl
    rw [hR]
    have hdb : (PerformDeletion env db []).db = db := by simp [PerformDeletion]
    rw [hdb, hZ]
  · apply List.eq_nil_iff_forall_not_mem.mpr
    intro b hb
    have hdbj := congrArg DB.journal (PerformDeletion_committed env db _ hnil)
    dsimp only at hdbj
    have hdel : ∀ j ∈ db.journal,
        (j.id ∈ (GetRecordsToDelete db (FindZeroBalanceItemsByDate db cutoffDate)
            cutoffDate).map (fun r => r.JournalID)
          ↔ recordsWhere ((FindZeroBalanceItemsByDate db cutoffDate).map
              (fun item => item.ReferenceFk)) cutoffDate j = true) := by
      intro j hj
      rw [mem_GetRecordsToDelete_ids db _ cutoffDate hZ]
      constructor
      · rintro ⟨j', hj', hid, hw, _⟩
        have : j' = j := List.inj_on_of_nodup_map hkey hj' hj hid
        exact this ▸ hw
      · intro hw
        exact ⟨j, hj, rfl, hw, hjoin j hj hw⟩
    obtain ⟨g, hg, hnet, _⟩ := (mem_FindZeroBalanceItemsByDate _ cutoffDate b).mp hb
    obtain ⟨⟨j, hj, hjk⟩, hg2⟩ := (mem_groupRows _ g).mp hg
    rw [hdbj] at hj hg2
    obtain ⟨hj1, hjz⟩ := List.mem_filter.mp hj
    obtain ⟨hjmem, hjnot⟩ := List.mem_filter.mp hj1
    simp only [decide_eq_true_eq] at hjnot
    have hjw : ¬ recordsWhere ((FindZeroBalanceItemsByDate db cutoffDate).map
        (fun item => item.ReferenceFk)) cutoffDate j = true :=
      fun h => hjnot ((hdel j hjmem).mpr h)
    have hjref : ¬ ∃ r ∈ (FindZeroBalanceItemsByDate db cutoffDate).map
        (fun item => item.ReferenceFk), j.referenceFk = some r :=
      fun h => hjw ((recordsWhere_of_zeroBalanceWhere _ cutoffDate j hjz).mpr h)
    have hsame : g.2 = (db.journal.filter (zeroBalanceWhere cutoffDate)).filter
        (fun j' => decide (groupKey j' = g.1)) := by
      rw [hg2, List.filter_filter, List.filter_filter, List.filter_filter]
      apply List.filter_congr
      intro j' hj'
      by_cases hk : groupKey j' = g.1
      · by_cases hz' : zeroBalanceWhere cutoffDate j' = true
        · have hnotin : j'.id ∉ (GetRecordsToDelete db
              (FindZeroBalanceItemsByDate db cutoffDate) cutoffDate).map
                (fun r => r.JournalID) := by
            intro hin
            have hw := (hdel j' hj').mp hin
            obtain ⟨r, hr, href⟩ := (recordsWhere_of_zeroBalanceWhere _ cutoffDate j' hz').mp hw
            apply hjref
            refine ⟨r, hr, ?_⟩
            have h1 : (groupKey j').1 = (groupKey j).1 := by rw [hk, hjk]
            simp only [groupKey] at h1
            rw [← h1, href]
          simp [hk, hz', hnotin]
        · simp [hz']
      · simp [hk]
    have hgmem : (g.1, (db.journal.filter (zeroBalanceWhere cutoffDate)).filter
        (fun j' => decide (groupKey j' = g.1)))
          ∈ groupRows (db.journal.filter (zeroBalanceWhere cutoffDate)) :=
      (mem_groupRows _ _).mpr ⟨⟨j, List.mem_filter.mpr ⟨hjmem, hjz⟩, hjk⟩, rfl⟩
    have hin : scanItemBalance (g.1, (db.journal.filter (zeroBalanceWhere cutoffDate)).filter
        (fun j' => decide (groupKey j' = g.1))) ∈ FindZeroBalanceItemsByDate db cutoffDate :=
      (mem_FindZeroBalanceItemsByDate db cutoffDate _).mpr ⟨_, hgmem, hsame ▸ hnet, rfl⟩
    apply hjref
    simp only [zeroBalanceWhere, Bool.and_eq_true, decide_eq_true_eq] at hjz
    obtain ⟨r, hr⟩ := Option.isSome_iff_exists.mp hjz.2
    refine ⟨r, ?_, hr⟩
    apply List.mem_map.mpr
    refine ⟨_, hin, ?_⟩
    simp only [scanItemBalance]
    rw [← hjk]
    simp [groupKey, hr]

/-- C7 (amended) instantiated on the purchase-and-sale state. -/
theorem second_pass_finds_no_groups_witness :
    (saleDB.journal.map (fun j => j.id)).Nodup ∧
    (∀ j ∈ saleDB.journal,
      recordsWhere ((FindZeroBalanceItemsByDate saleDB 10).map
        (fun item => item.ReferenceFk)) 10 j = true → joinsToHeader saleDB j) ∧
    (PerformDeletion quietEnv saleDB (GetRecordsToDelete saleDB
      (FindZeroBalanceItemsByDate saleDB 10) 10)).err = none ∧
    FindZeroBalanceItemsByDate (PerformDeletion quietEnv saleDB (GetRecordsToDelete saleDB
      (FindZeroBalanceItemsByDate saleDB 10) 10)).db 10 = [] :=
  ⟨by decide, by decide!, by decide!,
   second_pass_finds_no_groups quietEnv saleDB 10 (by decide) (by decide!) (by decide!)⟩

/-! ## PerformDeletion returns `nil` on a working store with the rows in place -/

theorem accumulate_succeeds [Arith F] (records : List DeletedRecord) :
    ∀ (tx : Tx F) (dq : GoMap F) (jm : GoMap (List Int)),
      (∀ n, tx.faults n = false) →
      (∀ r ∈ records, (tx.db.journal.find? (fun j => decide (j.id = r.JournalID))).isSome) →
      (PerformDeletion.accumulate tx dq jm records).1 = none := by
  induction records with
  | nil => intro tx dq jm _ _; rfl
  | cons r rest ih =>
    intro tx dq jm hf hrows
    rw [PerformDeletion.accumulate]
    obtain ⟨j, hj⟩ := Option.isSome_iff_exists.mp (hrows r (List.mem_cons_self _ _))
    simp only [Tx.QueryJournalRow, hf, hj, Bool.false_eq_true, if_false]
    exact ih _ _ _ hf (fun r' hr' => hrows r' (List.mem_cons_of_mem _ hr'))

theorem deleteByIDs_succeeds (tx : Tx F) (t : Table) (ids : List Int)
    (hf : ∀ n, tx.faults n = false) : (deleteByIDs tx t ids).1 = none := by
  rw [deleteByIDs_eq_loop]
  obtain ⟨_, _, _, _, hall⟩ := loop_trace t ids ids.length 0 tx rfl
  exact hall (fun j _ => hf _)

theorem storedQuantity_update_isSome (db : DB F) (q : F) (d d' : Int)
    (h : (storedQuantity db d').isSome) :
    (storedQuantity (applyStmt (.updateQuantity q d) db) d').isSome := by
  simp only [storedQuantity, applyStmt, Option.isSome_map', List.find?_isSome] at h ⊢
  obtain ⟨row, hrow, hid⟩ := h
  refine ⟨if row.id = d then { row with quantity := q } else row,
    List.mem_map.mpr ⟨row, hrow, rfl⟩, ?_⟩
  split <;> exact hid

theorem reconcile_succeeds [Arith F] (dq : GoMap F) :
    ∀ (ks : List Int) (tx : Tx F) (dd : List Int) (du : Nat),
      (∀ n, tx.faults n = false) →
      (∀ d ∈ ks, (storedQuantity tx.db d).isSome) →
      (PerformDeletion.reconcile dq tx dd du ks).1 = none := by
  intro ks
  induction ks with
  | nil => intro tx dd du _ _; rfl
  | cons d ks ih =>
    intro tx dd du hf hrows
    rw [PerformDeletion.reconcile]
    have hd := hrows d (List.mem_cons_self _ _)
    simp only [storedQuantity, Option.isSome_map'] at hd
    obtain ⟨row, hrow⟩ := Option.isSome_iff_exists.mp hd
    simp only [Tx.QueryDetailRow, hf, hrow, Bool.false_eq_true, if_false]
    split
    · exact ih { tx with ops := tx.ops + 1 } _ _ hf
        (fun d' hd' => hrows d' (List.mem_cons_of_mem _ hd'))
    · simp only [Tx.Exec, hf, Bool.false_eq_true, if_false]
      refine ih { db := applyStmt (.updateQuantity (Arith.sub row.quantity (dq.val d)) d) tx.db,
                  faults := tx.faults, ops := tx.ops + 1 + 1,
                  executed := tx.executed ++
                    [.updateQuantity (Arith.sub row.quantity (dq.val d)) d],
                  committed := tx.committed }
        _ _ hf ?_
      intro d' hd'
      exact storedQuantity_update_isSome _ _ _ _ (hrows d' (List.mem_cons_of_mem _ hd'))

theorem body_succeeds [Arith F] (env : Env) (tx : Tx F) (records : List DeletedRecord)
    (hf : ∀ n, tx.faults n = false)
    (hj : ∀ r ∈ records, (tx.db.journal.find? (fun j => decide (j.id = r.JournalID))).isSome)
    (hd : ∀ r ∈ records, (storedQuantity tx.db r.DetailID).isSome) :
    (PerformDeletion.body env tx records).1 = none := by
  have hacc1 := accumulate_succeeds records tx (GoMap.empty Arith.zero) (GoMap.empty []) hf hj
  have htx := accumulate_tx records tx (GoMap.empty Arith.zero) (GoMap.empty [])
  have hok := accumulate_ok records tx (GoMap.empty Arith.zero) (GoMap.empty []) hacc1
  rcases hacc : PerformDeletion.accumulate tx (GoMap.empty Arith.zero) (GoMap.empty []) records
    with ⟨e, tx1, dq, jm⟩
  rw [hacc] at hacc1 htx hok
  dsimp only at hacc1 htx hok
  subst hacc1
  obtain ⟨htx_db, _, htx_f⟩ := htx
  obtain ⟨_, _, _, _, a5, _, _, _⟩ := hok
  unfold PerformDeletion.body
  rw [hacc]
  dsimp only
  rw [deleteByIDs_guarded]
  have hf1 : ∀ n, tx1.faults n = false := fun n => by rw [htx_f]; exact hf n
  have hdel1 := deleteByIDs_succeeds tx1 .journal
    ((env.journalOrder.iter jm.keys).map jm.val).flatten hf1
  have hd1 := deleteByIDs_ok tx1 .journal _ hdel1
  rcases hdeq : deleteByIDs tx1 .journal
    ((env.journalOrder.iter jm.keys).map jm.val).flatten with ⟨e1, tx2⟩
  rw [hdeq] at hdel1 hd1
  dsimp only at hdel1 hd1
  subst hdel1
  dsimp only
  have hf2 : ∀ n, tx2.faults n = false := fun n => by rw [hd1]; exact hf1 n
  have hform2 : tx2.db.form_detail = tx.db.form_detail := by
    rw [hd1, ← htx_db]; rfl
  have hrows : ∀ d ∈ env.detailOrder.iter dq.keys, (storedQuantity tx2.db d).isSome := by
    intro d hdk
    have hdm := (a5 d).mp ((env.detailOrder.perm dq.keys).mem_iff.mp hdk)
    simp only [GoMap.empty, List.not_mem_nil, false_or] at hdm
    obtain ⟨r, hr, rfl⟩ := List.mem_map.mp hdm
    have := hd r hr
    simpa only [storedQuantity, hform2] using this
  have hrec1 := reconcile_succeeds dq (env.detailOrder.iter dq.keys) tx2 [] 0 hf2 hrows
  have hks : (env.detailOrder.iter dq.keys).Nodup := by
    apply (env.detailOrder.perm dq.keys).nodup_iff.mpr
    have := (accumulate_ok records tx (GoMap.empty Arith.zero) (GoMap.empty []) (by rw [hacc])).2.2.2.1
    rw [hacc] at this
    exact this (by simp [GoMap.empty])
  have hr5 := (reconcile_ok dq _ tx2 [] 0 hks hrec1).2.2.2.2.1
  rcases hrec : PerformDeletion.reconcile dq tx2 [] 0 (env.detailOrder.iter dq.keys)
    with ⟨e2, tx3, dd, du⟩
  rw [hrec] at hrec1 hr5
  dsimp only at hrec1 hr5
  subst hrec1
  dsimp only
  rw [deleteByIDs_guarded]
  have hf3 : ∀ n, tx3.faults n = false := fun n => by rw [hr5]; exact hf2 n
  have hdel2 := deleteByIDs_succeeds tx3 .form_detail dd hf3
  rcases hdeq2 : deleteByIDs tx3 .form_detail dd with ⟨e3, tx4⟩
  rw [hdeq2] at hdel2
  dsimp only at hdel2
  subst hdel2
  rfl

theorem PerformDeletion_succeeds [Arith F] (env : Env) (db : DB F) (records : List DeletedRecord)
    (hf : ∀ n, env.faults n = false)
    (hj : ∀ r ∈ records, (db.journal.find? (fun j => decide (j.id = r.JournalID))).isSome)
    (hd : ∀ r ∈ records, (storedQuantity db r.DetailID).isSome) :
    (PerformDeletion env db records).err = none := by
  unfold PerformDeletion
  split
  · rfl
  · unfold Begin
    simp only [hf, Bool.false_eq_true, if_false]
    have hb := body_succeeds env ⟨db, env.faults, 1, [], db⟩ records hf hj hd
    have hbf := (body_ok env ⟨db, env.faults, 1, [], db⟩ records hb)
    obtain ⟨_, _, _, _, _, _, _, _, _, _, hfaults⟩ := hbf
    rcases hbody : PerformDeletion.body env ⟨db, env.faults, 1, [], db⟩ records with ⟨e, tx, plan⟩
    rw [hbody] at hb hfaults
    dsimp only at hb hfaults
    subst hb
    dsimp only
    unfold Tx.Commit
    rw [hfaults]
    simp [hf]

/-- C1. On a store without faults, `PerformDeletion` returns `nil` whenever every
record's journal entry and line item exist.  And whenever it returns `nil` (whatever
the faults and iteration orders), every journal lookup found its entry and, for every
line item `detailID` occurring in `records`: the line item has a stored quantity
`currentQty`; with the accumulated reduction being the sum, added up from `0.0` in
record order, over the records of that line item of `float64(type) * quantity` of
the referenced journal entry, and `newQty = currentQty - reduction`, the line item is
on the delete list (once) and gets no `UPDATE` if the test `newQty <= 0.001` holds,
and otherwise it is not on the delete list and gets exactly one `UPDATE`, to
`newQty`.  All arithmetic is that of the carrier, so this is the decision of the
program in float64 as well as in exact arithmetic. -/
theorem PerformDeletion_reconciles_each_line_item [Arith F] (env : Env) (db : DB F)
    (records : List DeletedRecord) :
    ((∀ n, env.faults n = false) →
      (∀ r ∈ records, (db.journal.find? (fun j => decide (j.id = r.JournalID))).isSome) →
      (∀ r ∈ records, (storedQuantity db r.DetailID).isSome) →
      (PerformDeletion env db records).err = none) ∧
    ((PerformDeletion env db records).err = none →
      (∀ r ∈ records, (db.journal.find? (fun j => decide (j.id = r.JournalID))).isSome) ∧
      ∀ detailID ∈ records.map (fun r => r.DetailID),
        ∃ currentQty : F,
          storedQuantity db detailID = some currentQty ∧
          (Arith.le (Arith.sub currentQty (accumulatedReduction db records detailID))
              Arith.eps = true →
            (PerformDeletion env db records).plan.detailsToDelete.count detailID = 1 ∧
            updatesOf detailID (PerformDeletion env db records).executed = []) ∧
          (Arith.le (Arith.sub currentQty (accumulatedReduction db records detailID))
              Arith.eps = false →
            detailID ∉ (PerformDeletion env db records).plan.detailsToDelete ∧
            updatesOf detailID (PerformDeletion env db records).executed
              = [Arith.sub currentQty (accumulatedReduction db records detailID)])) := by
  refine ⟨PerformDeletion_succeeds env db records, ?_⟩
  intro hnil
  by_cases hne : records = []
  · subst hne
    simp
  obtain ⟨ks, _, hks, hj, hst, _, _⟩ := PerformDeletion_plan_ok env db records hne hnil
  refine ⟨hj, ?_⟩
  intro detailID hmem
  obtain ⟨cur, hcur⟩ := Option.isSome_iff_exists.mp (hst detailID ((hks detailID).mpr hmem))
  have hnq : newQuantity db (accumulatedReduction db records) detailID
      = Arith.sub cur (accumulatedReduction db records detailID) := by
    simp [newQuantity, hcur]
  refine ⟨cur, hcur, ?_, ?_⟩
  · intro hle
    exact lineItem_deleted env db records detailID hnil hmem (hnq ▸ hle)
  · intro hgt
    rw [← hnq] at hgt ⊢
    exact lineItem_updated env db records detailID hnil hmem hgt

/-- C1 instantiated on the purchase-and-sale state: the pass returns `nil`; line item
100 (stored 5, reduction `+1 * 5`) and line item 200 (stored 5, reduction `-1 * 5`)
each get the outcome their remainder decides. -/
theorem PerformDeletion_reconciles_each_line_item_witness :
    (PerformDeletion quietEnv saleDB saleRecords).err = none ∧
    accumulatedReduction saleDB saleRecords 100 = 5 ∧
    accumulatedReduction saleDB saleRecords 200 = -5 ∧
    ∀ detailID ∈ saleRecords.map (fun r => r.DetailID),
      ∃ currentQty : ℚ,
        storedQuantity saleDB detailID = some currentQty ∧
        (Arith.le (Arith.sub currentQty (accumulatedReduction saleDB saleRecords detailID))
            Arith.eps = true →
          (PerformDeletion quietEnv saleDB saleRecords).plan.detailsToDelete.count detailID = 1 ∧
          updatesOf detailID (PerformDeletion quietEnv saleDB saleRecords).executed = []) ∧
        (Arith.le (Arith.sub currentQty (accumulatedReduction saleDB saleRecords detailID))
            Arith.eps = false →
          detailID ∉ (PerformDeletion quietEnv saleDB saleRecords).plan.detailsToDelete ∧
          updatesOf detailID (PerformDeletion quietEnv saleDB saleRecords).executed
            = [Arith.sub currentQty (accumulatedReduction saleDB saleRecords detailID)]) :=
  ⟨by decide!, by decide!, by decide!,
    ((PerformDeletion_reconciles_each_line_item quietEnv saleDB saleRecords).2
      (by decide!)).2⟩

/-- What `PerformDeletion` writes in exact arithmetic: when it returns `nil`, every
`UPDATE` of a line item of the records writes its stored quantity minus the
accumulated signed reduction, which is at most the stored quantity exactly when that
reduction is not negative. -/
theorem written_quantity_le_iff (env : Env) (db : DB ℚ) (records : List DeletedRecord)
    (detailID : Int) (currentQty : ℚ)
    (hnil : (PerformDeletion env db records).err = none)
    (hmem : detailID ∈ records.map (fun r => r.DetailID))
    (hcur : storedQuantity db detailID = some currentQty) :
    ∀ q ∈ updatesOf detailID (PerformDeletion env db records).executed,
      q = currentQty - accumulatedReduction db records detailID ∧
      (q ≤ currentQty ↔ 0 ≤ accumulatedReduction db records detailID) := by
  intro q hq
  have hnq : newQuantity db (accumulatedReduction db records) detailID
      = currentQty - accumulatedReduction db records detailID := by
    simp only [newQuantity, hcur, Option.getD_some]
    rfl
  by_cases hle : Arith.le (newQuantity db (accumulatedReduction db records) detailID)
      Arith.eps = true
  · rw [(lineItem_deleted env db records detailID hnil hmem hle).2] at hq
    simp at hq
  · have hgt : Arith.le (newQuantity db (accumulatedReduction db records) detailID)
        Arith.eps = false := by simpa using hle
    rw [(lineItem_updated env db records detailID hnil hmem hgt).2, List.mem_singleton] at hq
    rw [hq, hnq]
    exact ⟨rfl, by constructor <;> intro h <;> linarith⟩

/-! ## The zero-balance groups -/

theorem filter_groupKey_eq_groupEntries (db : DB F) (cutoffDate : Date)
    (k : Int × Int × Int × Int) :
    (db.journal.filter (zeroBalanceWhere cutoffDate)).filter
        (fun j => decide (groupKey j = (some k.1, k.2.1, k.2.2.1, k.2.2.2)))
      = groupEntries db cutoffDate k := by
  unfold groupEntries
  rw [List.filter_filter]
  apply List.filter_congr
  intro j _
  by_cases hk : groupKey j = (some k.1, k.2.1, k.2.2.1, k.2.2.2)
  · have href : j.referenceFk = some k.1 := congrArg Prod.fst hk
    simp [zeroBalanceWhere, hk, href]
  · simp [hk]

theorem groupRows_key_some (cutoffDate : Date) (rows : List (JournalRow F))
    (g : GroupKey × List (JournalRow F))
    (hg : g ∈ groupRows (rows.filter (zeroBalanceWhere cutoffDate))) :
    ∃ r, g.1 = (some r, g.1.2.1, g.1.2.2.1, g.1.2.2.2) := by
  obtain ⟨⟨j, hj, hjk⟩, _⟩ := (mem_groupRows _ g).mp hg
  have hz := (List.mem_filter.mp hj).2
  simp only [zeroBalanceWhere, Bool.and_eq_true, decide_eq_true_eq] at hz
  obtain ⟨r, hr⟩ := Option.isSome_iff_exists.mp hz.2
  refine ⟨r, ?_⟩
  rw [← hjk]
  simp [groupKey, hr]

theorem scanItemBalance_key [Arith F] (g : GroupKey × List (JournalRow F)) (r : Int)
    (hg : g.1 = (some r, g.1.2.1, g.1.2.2.1, g.1.2.2.2)) :
    (scanItemBalance g).key = (r, g.1.2.1, g.1.2.2.1, g.1.2.2.2) := by
  simp only [ItemBalance.key, scanItemBalance]
  rw [hg]
  rfl

theorem groupRows_nodup (rows : List (JournalRow F)) : (groupRows rows).Nodup := by
  unfold groupRows
  apply List.Nodup.map_on _ (List.nodup_dedup _)
  intro a _ b _ h
  exact congrArg Prod.fst h

theorem scan_key_injOn [Arith F] (cutoffDate : Date) (rows : List (JournalRow F))
    (g₁ g₂ : GroupKey × List (JournalRow F))
    (h₁ : g₁ ∈ groupRows (rows.filter (zeroBalanceWhere cutoffDate)))
    (h₂ : g₂ ∈ groupRows (rows.filter (zeroBalanceWhere cutoffDate)))
    (hk : (scanItemBalance g₁).key = (scanItemBalance g₂).key) : g₁ = g₂ := by
  obtain ⟨r₁, hr₁⟩ := groupRows_key_some cutoffDate rows g₁ h₁
  obtain ⟨r₂, hr₂⟩ := groupRows_key_some cutoffDate rows g₂ h₂
  rw [scanItemBalance_key g₁ r₁ hr₁, scanItemBalance_key g₂ r₂ hr₂] at hk
  have hfst : g₁.1 = g₂.1 := by
    rw [hr₁, hr₂]
    simp only [Prod.mk.injEq] at hk ⊢
    exact ⟨congrArg some hk.1, hk.2.1, hk.2.2.1, hk.2.2.2⟩
  have hsnd : g₁.2 = g₂.2 := by
    rw [((mem_groupRows _ g₁).mp h₁).2, ((mem_groupRows _ g₂).mp h₂).2, hfst]
  exact Prod.ext hfst hsnd

theorem FindZeroBalanceItemsByDate_perm [Arith F] (db : DB F) (cutoffDate : Date) :
    (FindZeroBalanceItemsByDate db cutoffDate).Perm
      (((groupRows (db.journal.filter (zeroBalanceWhere cutoffDate))).filter
        (fun g => Arith.sqlIsZero (netBalance g.2))).map scanItemBalance) := by
  unfold FindZeroBalanceItemsByDate
  exact List.perm_insertionSort _ _

theorem FindZeroBalanceItemsByDate_keys_nodup [Arith F] (db : DB F) (cutoffDate : Date) :
    ((FindZeroBalanceItemsByDate db cutoffDate).map ItemBalance.key).Nodup := by
  rw [((FindZeroBalanceItemsByDate_perm db cutoffDate).map ItemBalance.key).nodup_iff,
    List.map_map]
  apply List.Nodup.map_on _ ((groupRows_nodup _).filter _)
  intro a ha b hb h
  exact scan_key_injOn cutoffDate db.journal a b (List.mem_of_mem_filter ha)
    (List.mem_of_mem_filter hb) h

theorem FindZeroBalanceItemsByDate_sorted [Arith F] (db : DB F) (cutoffDate : Date) :
    ((FindZeroBalanceItemsByDate db cutoffDate).map (fun b => b.ReferenceFk)).Sorted
      (fun a b => a ≤ b) := by
  unfold FindZeroBalanceItemsByDate
  haveI : IsTotal (ItemBalance F) (fun a b => a.ReferenceFk ≤ b.ReferenceFk) :=
    ⟨fun a b => le_total a.ReferenceFk b.ReferenceFk⟩
  haveI : IsTrans (ItemBalance F) (fun a b => a.ReferenceFk ≤ b.ReferenceFk) :=
    ⟨fun a b c hab hbc => le_trans hab hbc⟩
  exact List.pairwise_map.mpr (List.sorted_insertionSort
    (fun a b : ItemBalance F => a.ReferenceFk ≤ b.ReferenceFk) _)

theorem mem_FindZeroBalanceItemsByDate_key [Arith F] (db : DB F) (cutoffDate : Date)
    (b : ItemBalance F) (hb : b ∈ FindZeroBalanceItemsByDate db cutoffDate) :
    groupEntries db cutoffDate b.key ≠ [] ∧
    b.NetBalance = netBalance (groupEntries db cutoffDate b.key) ∧
    Arith.sqlIsZero (netBalance (groupEntries db cutoffDate b.key)) = true := by
  obtain ⟨g, hg, hnet, rfl⟩ := (mem_FindZeroBalanceItemsByDate db cutoffDate b).mp hb
  obtain ⟨r, hr⟩ := groupRows_key_some cutoffDate db.journal g hg
  obtain ⟨⟨j, hj, hjk⟩, hg2⟩ := (mem_groupRows _ g).mp hg
  have hkey := scanItemBalance_key g r hr
  have hent : g.2 = groupEntries db cutoffDate (scanItemBalance g).key := by
    rw [hg2, hkey, ← filter_groupKey_eq_groupEntries]
    dsimp only
    rw [← hr]
  refine ⟨?_, ?_, ?_⟩
  · rw [← hent, hg2]
    intro hnil
    have : j ∈ (db.journal.filter (zeroBalanceWhere cutoffDate)).filter
        (fun j' => decide (groupKey j' = g.1)) :=
      List.mem_filter.mpr ⟨hj, by simpa using hjk⟩
    rw [hnil] at this
    simp at this
  · rw [← hent]
    rfl
  · rw [← hent]
    exact hnet

theorem mem_keys_of_zero [Arith F] (db : DB F) (cutoffDate : Date) (k : Int × Int × Int × Int)
    (hne : groupEntries db cutoffDate k ≠ [])
    (hzero : Arith.sqlIsZero (netBalance (groupEntries db cutoffDate k)) = true) :
    k ∈ (FindZeroBalanceItemsByDate db cutoffDate).map ItemBalance.key := by
  obtain ⟨j, hj⟩ := List.exists_mem_of_ne_nil _ hne
  rw [← filter_groupKey_eq_groupEntries] at hj hzero
  obtain ⟨hjrows, hjk⟩ := List.mem_filter.mp hj
  simp only [decide_eq_true_eq] at hjk
  have hg : ((some k.1, k.2.1, k.2.2.1, k.2.2.2),
      (db.journal.filter (zeroBalanceWhere cutoffDate)).filter
        (fun j => decide (groupKey j = (some k.1, k.2.1, k.2.2.1, k.2.2.2))))
        ∈ groupRows (db.journal.filter (zeroBalanceWhere cutoffDate)) :=
    (mem_groupRows _ _).mpr ⟨⟨j, hjrows, hjk⟩, rfl⟩
  apply List.mem_map.mpr
  refine ⟨_, (mem_FindZeroBalanceItemsByDate db cutoffDate _).mpr ⟨_, hg, hzero, rfl⟩, ?_⟩
  rw [scanItemBalance_key _ k.1 rfl]

/-- C11. For every journal table and cutoff date, and every grouping key
`(referenceFk, itemFk, locationFk, shopFk)` that has at least one account-class-2
entry dated on or before the cutoff: `FindZeroBalanceItemsByDate` returns that key if
and only if the store's `SUM(type * quantity)` over those entries, taken in the
store's own arithmetic, compares equal to zero, without any tolerance.  Every
returned item is the key of such a group, no key is returned twice, and the result is
in ascending `referenceFk` order. -/
theorem FindZeroBalanceItemsByDate_exact [Arith F] (db : DB F) (cutoffDate : Date) :
    (∀ k : Int × Int × Int × Int, groupEntries db cutoffDate k ≠ [] →
      (k ∈ (FindZeroBalanceItemsByDate db cutoffDate).map ItemBalance.key ↔
        Arith.sqlIsZero (Arith.sqlSum ((groupEntries db cutoffDate k).map
          (fun j => Arith.sqlProduct j.type j.quantity))) = true)) ∧
    (∀ b ∈ FindZeroBalanceItemsByDate db cutoffDate,
      groupEntries db cutoffDate b.key ≠ []) ∧
    ((FindZeroBalanceItemsByDate db cutoffDate).map ItemBalance.key).Nodup ∧
    ((FindZeroBalanceItemsByDate db cutoffDate).map (fun b => b.ReferenceFk)).Sorted
      (fun a b => a ≤ b) := by
  refine ⟨?_, ?_, FindZeroBalanceItemsByDate_keys_nodup db cutoffDate,
    FindZeroBalanceItemsByDate_sorted db cutoffDate⟩
  · intro k hne
    constructor
    · intro hk
      obtain ⟨b, hb, rfl⟩ := List.mem_map.mp hk
      exact (mem_FindZeroBalanceItemsByDate_key db cutoffDate b hb).2.2
    · intro hzero
      exact mem_keys_of_zero db cutoffDate k hne hzero
  · intro b hb
    exact (mem_FindZeroBalanceItemsByDate_key db cutoffDate b hb).1

/-- C11 instantiated on two groups that share `referenceFk = 7`: the group
`(7, 1, 1, 1)` with entries `+5, -5` is returned, the group `(7, 2, 1, 1)` with the
single entry `+8` is not. -/
theorem FindZeroBalanceItemsByDate_exact_witness :
    groupEntries sharedReferenceDB 10 (7, 1, 1, 1) ≠ [] ∧
    groupEntries sharedReferenceDB 10 (7, 2, 1, 1) ≠ [] ∧
    (7, 1, 1, 1) ∈ (FindZeroBalanceItemsByDate sharedReferenceDB 10).map ItemBalance.key ∧
    (7, 2, 1, 1) ∉ (FindZeroBalanceItemsByDate sharedReferenceDB 10).map ItemBalance.key :=
  ⟨by decide!, by decide!,
   ((FindZeroBalanceItemsByDate_exact sharedReferenceDB 10).1 (7, 1, 1, 1)
      (by decide!)).mpr (by decide!),
   fun h => absurd (((FindZeroBalanceItemsByDate_exact sharedReferenceDB 10).1 (7, 2, 1, 1)
      (by decide!)).mp h) (by decide!)⟩

/-! ## The journal identifiers handed to deleteByIDs -/

theorem grouped_ids_perm (ks : List Int) :
    ∀ (l : List DeletedRecord), ks.Nodup → (∀ r ∈ l, r.DetailID ∈ ks) →
      ((ks.map (fun d => (l.filter (fun r => decide (r.DetailID = d))).map
          (fun r => r.JournalID))).flatten).Perm (l.map (fun r => r.JournalID)) := by
  induction ks with
  | nil =>
    intro l _ hcov
    have hl : l = [] := by
      apply List.eq_nil_iff_forall_not_mem.mpr
      intro r hr
      simpa using hcov r hr
    subst hl
    exact List.Perm.refl _
  | cons d ks ih =>
    intro l hnd hcov
    have hd : d ∉ ks := (List.nodup_cons.mp hnd).1
    have hnd' : ks.Nodup := (List.nodup_cons.mp hnd).2
    have hrest : ∀ d' ∈ ks,
        (l.filter (fun r => decide (r.DetailID = d'))).map (fun r => r.JournalID)
          = ((l.filter (fun r => !decide (r.DetailID = d))).filter
              (fun r => decide (r.DetailID = d'))).map (fun r => r.JournalID) := by
      intro d' hd'
      rw [List.filter_filter]
      congr 1
      apply List.filter_congr
      intro r _
      by_cases hr : r.DetailID = d'
      · have hne : ¬ d' = d := fun h => hd (h ▸ hd')
        simp [hr, hne]
      · simp [hr]
    have hcov' : ∀ r ∈ l.filter (fun r => !decide (r.DetailID = d)), r.DetailID ∈ ks := by
      intro r hr
      obtain ⟨hrl, hrd⟩ := List.mem_filter.mp hr
      rcases List.mem_cons.mp (hcov r hrl) with h | h
      · simp [h] at hrd
      · exact h
    rw [List.map_cons, List.flatten_cons, List.map_congr_left hrest]
    have htail := ih (l.filter (fun r => !decide (r.DetailID = d))) hnd' hcov'
    have hsplit := (List.filter_append_perm (fun r : DeletedRecord => decide (r.DetailID = d))
      l).map (fun r => r.JournalID)
    rw [List.map_append] at hsplit
    exact (List.Perm.append_left _ htail).trans hsplit

theorem accumulate_succeeds_within [Arith F] (records : List DeletedRecord) :
    ∀ (tx : Tx F) (dq : GoMap F) (jm : GoMap (List Int)),
      (∀ n, tx.ops ≤ n → n < tx.ops + records.length → tx.faults n = false) →
      (∀ r ∈ records, (tx.db.journal.find? (fun j => decide (j.id = r.JournalID))).isSome) →
      (PerformDeletion.accumulate tx dq jm records).1 = none := by
  induction records with
  | nil => intro tx dq jm _ _; rfl
  | cons r rest ih =>
    intro tx dq jm hf hrows
    rw [PerformDeletion.accumulate]
    obtain ⟨j, hj⟩ := Option.isSome_iff_exists.mp (hrows r (List.mem_cons_self _ _))
    have hf0 : tx.faults tx.ops = false := hf tx.ops (Nat.le_refl _) (by simp)
    simp only [Tx.QueryJournalRow, hf0, hj, Bool.false_eq_true, if_false]
    apply ih { tx with ops := tx.ops + 1 }
    · intro n h1 h2
      apply hf n
      · exact Nat.le_of_succ_le h1
      · simp only [List.length_cons]
        dsimp only at h2
        omega
    · exact fun r' hr' => hrows r' (List.mem_cons_of_mem _ hr')

theorem body_allJournalIDs [Arith F] (env : Env) (tx : Tx F) (records : List DeletedRecord)
    (h : (PerformDeletion.accumulate tx (GoMap.empty Arith.zero) (GoMap.empty []) records).1 = none) :
    (PerformDeletion.body env tx records).2.2.allJournalIDs
      = ((env.journalOrder.iter
            (PerformDeletion.accumulate tx (GoMap.empty Arith.zero) (GoMap.empty [])
              records).2.2.2.keys).map
          (PerformDeletion.accumulate tx (GoMap.empty Arith.zero) (GoMap.empty [])
            records).2.2.2.val).flatten := by
  unfold PerformDeletion.body
  rcases hacc : PerformDeletion.accumulate tx (GoMap.empty Arith.zero) (GoMap.empty []) records
    with ⟨e, tx1, dq, jm⟩
  rw [hacc] at h
  dsimp only at h
  subst h
  dsimp only
  split
  · rfl
  · split
    · rfl
    · split <;> rfl

theorem journalDeleteIDs_append (a b : List (Stmt F)) :
    journalDeleteIDs (a ++ b) = journalDeleteIDs a ++ journalDeleteIDs b := by
  simp [journalDeleteIDs, List.filterMap_append]

theorem journalDeleteIDs_journal (bs : List (List Int)) :
    journalDeleteIDs (bs.map (Stmt.deleteIn .journal : List Int → Stmt F)) = bs.flatten := by
  induction bs with
  | nil => rfl
  | cons b bs ih =>
    simp only [journalDeleteIDs, List.map_cons, List.filterMap_cons, List.flatten_cons] at ih ⊢
    rw [ih]

theorem journalDeleteIDs_form_detail (bs : List (List Int)) :
    journalDeleteIDs (bs.map (Stmt.deleteIn .form_detail : List Int → Stmt F)) = [] := by
  induction bs with
  | nil => rfl
  | cons b bs ih =>
    simp only [journalDeleteIDs, List.map_cons, List.filterMap_cons] at ih ⊢
    exact ih

theorem journalDeleteIDs_updates (f : Int → F) (l : List Int) :
    journalDeleteIDs (l.map (fun d => Stmt.updateQuantity (f d) d)) = [] := by
  induction l with
  | nil => rfl
  | cons x l ih =>
    simp only [journalDeleteIDs, List.map_cons, List.filterMap_cons] at ih ⊢
    exact ih

theorem PerformDeletion_plan_eq_body [Arith F] (env : Env) (db : DB F) (records : List DeletedRecord)
    (hne : records ≠ []) (hbegin : env.faults 0 = false) :
    (PerformDeletion env db records).plan
      = (PerformDeletion.body env ⟨db, env.faults, 1, [], db⟩ records).2.2 := by
  have hlen : ¬ records.length = 0 := fun h0 => hne (List.length_eq_zero.mp h0)
  unfold PerformDeletion
  rw [if_neg hlen]
  unfold Begin
  simp only [hbegin, Bool.false_eq_true, if_false]
  rcases hbody : PerformDeletion.body env ⟨db, env.faults, 1, [], db⟩ records with ⟨e, tx, plan⟩
  cases e with
  | some err => rfl
  | none =>
    dsimp only
    unfold Tx.Commit
    split <;> rfl

/-- C12. For every non-empty record list whose journal lookups succeed (`Begin` and
the `len(records)` lookups meet no store fault and every record's journal entry
exists), and whatever the order in which the per-line-item maps are iterated, the
identifier list `allJournalIDs` that `PerformDeletion` passes to `deleteByIDs` for
the journal table is a permutation of the `JournalID` values of the records.  When the
pass returns `nil`, the identifiers of the executed `DELETE FROM journal` statements,
in order, are that list. -/
theorem PerformDeletion_journal_ids_perm [Arith F] (env : Env) (db : DB F)
    (records : List DeletedRecord)
    (hne : records ≠ [])
    (hops : ∀ n, n ≤ records.length → env.faults n = false)
    (hrows : ∀ r ∈ records,
      (db.journal.find? (fun j => decide (j.id = r.JournalID))).isSome) :
    (PerformDeletion env db records).plan.allJournalIDs.Perm
      (records.map (fun r => r.JournalID)) ∧
    ((PerformDeletion env db records).err = none →
      journalDeleteIDs (PerformDeletion env db records).executed
        = (PerformDeletion env db records).plan.allJournalIDs) := by
  have hlook : (PerformDeletion.accumulate ⟨db, env.faults, 1, [], db⟩ (GoMap.empty Arith.zero)
      (GoMap.empty []) records).1 = none := by
    apply accumulate_succeeds_within records _ _ _ _ hrows
    intro n _ h2
    apply hops n
    dsimp only at h2
    omega
  constructor
  · rw [PerformDeletion_plan_eq_body env db records hne (hops 0 (Nat.zero_le _)),
      body_allJournalIDs env _ records hlook]
    obtain ⟨_, _, a3, _, _, a6, a7, _⟩ :=
      accumulate_ok records ⟨db, env.faults, 1, [], db⟩ (GoMap.empty Arith.zero) (GoMap.empty []) hlook
    have hnd := a6 (by simp [GoMap.empty])
    have hval : ∀ d, (PerformDeletion.accumulate ⟨db, env.faults, 1, [], db⟩ (GoMap.empty Arith.zero)
        (GoMap.empty []) records).2.2.2.val d
          = (records.filter (fun r => decide (r.DetailID = d))).map (fun r => r.JournalID) := by
      intro d
      rw [a3 d]
      simp [GoMap.empty]
    have hcov : ∀ r ∈ records, r.DetailID ∈ (PerformDeletion.accumulate
        ⟨db, env.faults, 1, [], db⟩ (GoMap.empty Arith.zero) (GoMap.empty []) records).2.2.2.keys := by
      intro r hr
      exact (a7 r.DetailID).mpr (Or.inr (List.mem_map.mpr ⟨r, hr, rfl⟩))
    have h1 := ((env.journalOrder.perm (PerformDeletion.accumulate
      ⟨db, env.faults, 1, [], db⟩ (GoMap.empty Arith.zero) (GoMap.empty []) records).2.2.2.keys).map
        (PerformDeletion.accumulate
          ⟨db, env.faults, 1, [], db⟩ (GoMap.empty Arith.zero) (GoMap.empty []) records).2.2.2.val).flatten
    have h2 := grouped_ids_perm _ records hnd hcov
    rw [← List.map_congr_left (fun d _ => hval d)] at h2
    exact h1.trans h2
  · intro hnil
    obtain ⟨hb, _, hex, hplan⟩ := PerformDeletion_ok env db records hne hnil
    obtain ⟨ks, allJ, _, _, _, _, _, bplan, bex, _, _⟩ :=
      body_ok env ⟨db, env.faults, 1, [], db⟩ records hb
    dsimp only at bplan bex
    rw [hex, bex, hplan, bplan, journalDeleteIDs_append, journalDeleteIDs_append,
      journalDeleteIDs_append, journalDeleteIDs_journal, journalDeleteIDs_updates,
      journalDeleteIDs_form_detail]
    have := batches_flatten allJ allJ.length 0 rfl
    simp only [List.drop_zero] at this
    rw [this]
    simp [journalDeleteIDs]

/-- C12 instantiated on the purchase-and-sale records with the maps iterated
backwards: the list handed to `deleteByIDs` is `[2, 1]`, a permutation of the
records' `JournalID` values `[1, 2]`. -/
theorem PerformDeletion_journal_ids_perm_witness :
    saleRecords ≠ [] ∧
    (∀ r ∈ saleRecords,
      (saleDB.journal.find? (fun j => decide (j.id = r.JournalID))).isSome) ∧
    (PerformDeletion reversedEnv saleDB saleRecords).plan.allJournalIDs = [2, 1] ∧
    (PerformDeletion reversedEnv saleDB saleRecords).plan.allJournalIDs.Perm
      (saleRecords.map (fun r => r.JournalID)) :=
  ⟨by decide, by decide!, by decide!,
   (PerformDeletion_journal_ids_perm reversedEnv saleDB saleRecords (by decide)
      (fun _ _ => rfl) (by decide!)).1⟩

/-! ## Binary64: where the rounding decides -/

/-- Worked values of the rounding: `0.1` is `0x3FB999999999999A`, `0.001` is
`0x3F50624DD2F1A9FC`, the largest finite value plus half a unit overflows, and half
the smallest subnormal rounds to zero. -/
theorem round_values :
    Float64.round (1 / 10) = .finite (3602879701896397 / 2 ^ 55) ∧
    (Arith.eps : Float64) = .finite (1152921504606847 / 2 ^ 60) ∧
    Float64.round (2 ^ 1024 - 2 ^ 970) = .inf false ∧
    Float64.round (2 ^ 1024 - 2 ^ 970 - 1) = .finite (2 ^ 1024 - 2 ^ 971) ∧
    Float64.round (1 / 2 ^ 1075) = .finite 0 ∧
    Float64.round (3 / 2 ^ 1075) = .finite (1 / 2 ^ 1073) := by
  decide!

theorem binary64_ordered : Arith.Ordered Float64 where
  le_trans := by
    intro a b c hab hbc
    cases a <;> cases b <;> cases c <;>
      simp only [Arith.le, Float64.le, decide_eq_true_eq, Bool.or_eq_true, Bool.not_eq_true',
        Bool.false_eq_true] at hab hbc ⊢
    all_goals first
      | exact le_trans hab hbc
      | trivial
      | (rename_i s t u; cases s <;> cases t <;> cases u <;> simp_all)
  zero_le_eps := by decide!

/-- Every two binary64 values other than NaN are comparable. -/
theorem binary64_le_total (x y : Float64) (hx : x ≠ .nan) (hy : y ≠ .nan) :
    Arith.le x y = true ∨ Arith.le y x = true := by
  cases x <;> cases y <;>
    simp only [Arith.le, Float64.le, decide_eq_true_eq, Bool.or_eq_true, Bool.not_eq_true',
      ne_eq, not_true_eq_false] at hx hy ⊢
  all_goals first
    | exact le_total _ _
    | (rename_i s t; cases s <;> cases t <;> simp)

/-- The remainder of 0.301 after a reduction of 0.3 is `0.0010000000000000009` in
binary64: the test `newQty <= 0.001` fails and the line item is updated, not
deleted.  In exact decimals the remainder is `0.001` and the line item is deleted. -/
theorem remainder_at_threshold :
    (Arith.sub (Float64.round (301 / 1000)) (Float64.round (3 / 10)) : Float64)
      = .finite (9007199254741 / 2 ^ 53) ∧
    (PerformDeletion quietEnv (decimalDB (301 / 1000) (3 / 10)).toBinary64
      roundingRecords).err = none ∧
    (PerformDeletion quietEnv (decimalDB (301 / 1000) (3 / 10)).toBinary64
      roundingRecords).plan.detailsToDelete = [] ∧
    (PerformDeletion quietEnv (decimalDB (301 / 1000) (3 / 10)).toBinary64
      roundingRecords).executed
      = [Stmt.deleteIn .journal [1],
         Stmt.updateQuantity (Float64.finite (9007199254741 / 2 ^ 53)) 100] ∧
    (PerformDeletion quietEnv (decimalDB (301 / 1000) (3 / 10))
      roundingRecords).plan.detailsToDelete = [100] ∧
    (PerformDeletion quietEnv (decimalDB (301 / 1000) (3 / 10)) roundingRecords).executed
      = [Stmt.deleteIn .journal [1], Stmt.deleteIn .form_detail [100]] := by
  decide!

/-- Two more remainders in binary64.  `5.001 - 5` is `0.001000000000000334`: the line
item is updated.  A line item that holds the binary64 value of `0.001` and is reduced
by `0` passes the test `newQty <= 0.001`: it is deleted. -/
theorem remainders_near_threshold :
    (PerformDeletion quietEnv (decimalDB (5001 / 1000) 5).toBinary64
      roundingRecords).executed
      = [Stmt.deleteIn .journal [1],
         Stmt.updateQuantity (Float64.finite (1125899906843 / 2 ^ 50)) 100] ∧
    (PerformDeletion quietEnv (decimalDB (1 / 1000) 0).toBinary64
      roundingRecords).err = none ∧
    (PerformDeletion quietEnv (decimalDB (1 / 1000) 0).toBinary64
      roundingRecords).plan.detailsToDelete = [100] ∧
    (PerformDeletion quietEnv (decimalDB (1 / 1000) 0).toBinary64
      roundingRecords).executed
      = [Stmt.deleteIn .journal [1], Stmt.deleteIn .form_detail [100]] := by
  decide!

/-- The entries `+0.1`, `+0.2`, `-0.3` of one group add up to `2 ^ -54` in binary64:
the group is not a zero-balance group, while in exact decimals it is.  The entries
`+10 ^ 16`, `+1`, `-10 ^ 16` add up to zero in binary64, where the `1` is absorbed:
the group is a zero-balance group, while in exact decimals it is not. -/
theorem tenths_not_zero :
    netBalance (threeEntryDB (1 / 10) (2 / 10) (3 / 10)).toBinary64.journal
      = Float64.finite (1 / 2 ^ 54) ∧
    FindZeroBalanceItemsByDate (threeEntryDB (1 / 10) (2 / 10) (3 / 10)).toBinary64 10 = [] ∧
    (FindZeroBalanceItemsByDate (threeEntryDB (1 / 10) (2 / 10) (3 / 10)) 10).map
      ItemBalance.key = [(7, 1, 1, 1)] ∧
    (FindZeroBalanceItemsByDate (threeEntryDB (10 ^ 16) 1 (10 ^ 16)).toBinary64 10).map
      ItemBalance.key = [(7, 1, 1, 1)] ∧
    FindZeroBalanceItemsByDate (threeEntryDB (10 ^ 16) 1 (10 ^ 16)) 10 = [] := by
  decide!

/-- On the states the claims are instantiated on, the quantities are small integers
and binary64 computes what exact arithmetic computes: a live run and a dry run of
`main` select and do the same in both. -/
theorem binary64_agrees_on_concrete_states :
    runsAgree liveRun scenarioDB = true ∧ runsAgree dryRun scenarioDB = true ∧
    runsAgree liveRun saleDB = true ∧ runsAgree dryRun saleDB = true ∧
    runsAgree liveRun sharedReferenceDB = true ∧ runsAgree dryRun sharedReferenceDB = true ∧
    runsAgree liveRun danglingDB = true ∧ runsAgree dryRun danglingDB = true := by
  decide!

end RobShop
